import Mathlib

/-!
Shallow embedding of the interference / dead-store layer of the LLPE-style
program specializer (sources: `llpe/main/TentativeLoads.cpp` and
`llvm-3.2.src/lib/Analysis/Integrator/DSE.cpp`).

The tentative-load analysis keeps, per memory object, a set of "trusted"
byte intervals (the C++ `TLMapTy`, an LLVM `IntervalMap` over half-open
`uint64_t` intervals with boolean values that are always `true`).  We model
one such interval map as a list of half-open intervals `(start, stop)`.
The `IntervalMap` invariant (sorted, pairwise disjoint, non-adjacent,
non-empty intervals, always coalesced) is carried separately as `TLMapInv`.
-/

namespace LLPE

/-- One object's trusted-byte interval map (`TLMapTy`): a list of half-open
intervals `(start, stop)`, standing for the bytes `start ≤ x < stop`. -/
abbrev TLMap := List (ℕ × ℕ)

/-- Byte membership: `x` lies in one of the intervals of `M`.  This is the
byte-level meaning of an interval map. -/
def memB (x : ℕ) (M : TLMap) : Bool :=
  M.any (fun p => decide (p.1 ≤ x) && decide (x < p.2))

/-- `IntervalMap::insert` of a half-open interval `[a, b)` carrying value
`true`, modelling the coalescing behaviour of
`IntervalMap<..., IntervalMapHalfOpenInfo>`: an inserted interval is merged
with any existing interval it overlaps or abuts.  (In `TentativeLoads.cpp`
every `insert` call inserts the value `true` into a region disjoint from all
existing intervals, so only the coalescing of adjacent intervals is ever
exercised.) -/
def insertCoal (a b : ℕ) : TLMap → TLMap
  | [] => [(a, b)]
  | (c, d) :: t =>
    if b < c then (a, b) :: (c, d) :: t
    else if d < a then (c, d) :: insertCoal a b t
    else insertCoal (min a c) (max b d) t

/-- Intervals are non-empty, sorted and pairwise non-adjacent: the
`IntervalMap` representation invariant. -/
def TLMapInv (M : TLMap) : Prop :=
  M.Pairwise (fun p q => p.2 < q.1) ∧ ∀ p ∈ M, p.1 < p.2

/-- `TLMapPointer::mergeStores` (TentativeLoads.cpp:73-101): intersect two
interval maps byte-wise.  For each interval of `mergeFrom` the code walks
the intervals of `mergeTo` from `find(it.start())` while
`toit.start() < it.stop()` — given the `IntervalMap` sort invariant these
are exactly the intervals with `toit.stop() > it.start()` and
`toit.start() < it.stop()`, modelled by the filter — and collects
`(max(starts), min(stops))`; finally `mergeTo` is rebuilt by inserting the
collected ranges into a cleared map. -/
def mergeStores (mergeFrom mergeTo : TLMap) : TLMap :=
  let keepRanges :=
    mergeFrom.flatMap (fun f =>
      (mergeTo.filter (fun t => decide (f.1 < t.2) && decide (t.1 < f.2))).map
        (fun t => (max t.1 f.1, min t.2 f.2)))
  keepRanges.foldl (fun m r => insertCoal r.1 r.2 m) []

theorem insertCoal_cons (a b c d : ℕ) (t : TLMap) :
    insertCoal a b ((c, d) :: t) =
      if b < c then (a, b) :: (c, d) :: t
      else if d < a then (c, d) :: insertCoal a b t
      else insertCoal (min a c) (max b d) t := rfl

theorem memB_nil (x : ℕ) : memB x [] = false := rfl

theorem memB_cons (x : ℕ) (p : ℕ × ℕ) (M : TLMap) :
    memB x (p :: M) = ((decide (p.1 ≤ x) && decide (x < p.2)) || memB x M) := by
  simp [memB, List.any_cons]

/-- Byte semantics of coalescing insertion: inserting `[a, b)` adds exactly
the bytes of `[a, b)`. -/
theorem memB_insertCoal (a b x : ℕ) (M : TLMap) :
    memB x (insertCoal a b M) =
      ((decide (a ≤ x) && decide (x < b)) || memB x M) := by
  induction M generalizing a b with
  | nil => simp [insertCoal, memB]
  | cons p t ih =>
    obtain ⟨c, d⟩ := p
    rw [insertCoal_cons]
    by_cases h1 : b < c
    · rw [if_pos h1, memB_cons, memB_cons]
    · rw [if_neg h1]
      by_cases h2 : d < a
      · rw [if_pos h2, memB_cons, memB_cons, ih, Bool.or_left_comm]
      · rw [if_neg h2, ih, memB_cons]
        push_neg at h1 h2
        have key : (decide (min a c ≤ x) && decide (x < max b d)) =
            ((decide (a ≤ x) && decide (x < b)) || (decide (c ≤ x) && decide (x < d))) := by
          rw [← Bool.decide_and, ← Bool.decide_and, ← Bool.decide_and, ← Bool.decide_or,
            decide_eq_decide]
          omega
        rw [key, Bool.or_assoc]

/-- Byte semantics of inserting a list of ranges by folding `insertCoal`. -/
theorem memB_foldl_insertCoal (rs : List (ℕ × ℕ)) (M : TLMap) (x : ℕ) :
    memB x (rs.foldl (fun m r => insertCoal r.1 r.2 m) M) =
      (memB x M || rs.any (fun r => decide (r.1 ≤ x) && decide (x < r.2))) := by
  induction rs generalizing M with
  | nil => simp
  | cons r t ih =>
    simp only [List.foldl_cons, ih, memB_insertCoal, List.any_cons]
    rw [Bool.or_assoc, Bool.or_left_comm]

/-- Byte-level meaning of `mergeStores`: the merged map holds exactly the
bytes trusted in both inputs (set intersection). -/
theorem memB_mergeStores (A B : TLMap) (x : ℕ) :
    memB x (mergeStores A B) = (memB x A && memB x B) := by
  simp only [mergeStores, memB_foldl_insertCoal, memB_nil, Bool.false_or]
  rw [Bool.eq_iff_iff]
  simp only [memB, List.any_eq_true, Bool.and_eq_true, decide_eq_true_eq,
    List.mem_flatMap, List.mem_map, List.mem_filter]
  constructor
  · rintro ⟨r, ⟨f, hf, t, ⟨ht, hc⟩, rfl⟩, hx1, hx2⟩
    exact ⟨⟨f, hf, by omega, by omega⟩, ⟨t, ht, by omega, by omega⟩⟩
  · rintro ⟨⟨f, hf, hf1, hf2⟩, ⟨t, ht, ht1, ht2⟩⟩
    refine ⟨(max t.1 f.1, min t.2 f.2), ⟨f, hf, t, ⟨ht, ?_⟩, rfl⟩, by omega, by omega⟩
    omega

theorem insertCoal_lowerBound {lb a b : ℕ} {M : TLMap}
    (hM : ∀ p ∈ M, lb < p.1) (ha : lb < a) :
    ∀ q ∈ insertCoal a b M, lb < q.1 := by
  induction M generalizing a b with
  | nil =>
    intro q hq
    simp only [insertCoal, List.mem_singleton] at hq
    subst hq; exact ha
  | cons p t ih =>
    obtain ⟨c, d⟩ := p
    rw [insertCoal_cons]
    have hc : lb < c := hM (c, d) (List.mem_cons_self _ _)
    have ht : ∀ p ∈ t, lb < p.1 := fun p hp => hM p (List.mem_cons_of_mem _ hp)
    by_cases h1 : b < c
    · rw [if_pos h1]
      intro q hq
      simp only [List.mem_cons] at hq
      rcases hq with hq | hq | hq
      · subst hq; exact ha
      · subst hq; exact hc
      · exact ht _ hq
    · rw [if_neg h1]
      by_cases h2 : d < a
      · rw [if_pos h2]
        intro q hq
        rcases List.mem_cons.mp hq with hq | hq
        · subst hq; exact hc
        · exact ih ht ha _ hq
      · rw [if_neg h2]
        exact ih ht (lt_min ha hc)

/-- `insertCoal` preserves the `IntervalMap` representation invariant when
the inserted interval is non-empty. -/
theorem TLMapInv_insertCoal {a b : ℕ} {M : TLMap}
    (hM : TLMapInv M) (hab : a < b) : TLMapInv (insertCoal a b M) := by
  induction M generalizing a b with
  | nil =>
    exact ⟨List.pairwise_singleton _ _, by
      intro p hp; simp only [insertCoal, List.mem_singleton] at hp; subst hp; exact hab⟩
  | cons p t ih =>
    obtain ⟨c, d⟩ := p
    obtain ⟨hpw, hwf⟩ := hM
    rw [List.pairwise_cons] at hpw
    obtain ⟨hd, hpt⟩ := hpw
    have hcd : c < d := hwf (c, d) (List.mem_cons_self _ _)
    have hwt : ∀ p ∈ t, p.1 < p.2 := fun p hp => hwf p (List.mem_cons_of_mem _ hp)
    rw [insertCoal_cons]
    by_cases h1 : b < c
    · rw [if_pos h1]
      refine ⟨?_, ?_⟩
      · rw [List.pairwise_cons]
        refine ⟨?_, by rw [List.pairwise_cons]; exact ⟨hd, hpt⟩⟩
        intro q hq
        rcases List.mem_cons.mp hq with hq | hq
        · subst hq; exact h1
        · have := hd q hq; simp only; omega
      · intro q hq
        simp only [List.mem_cons] at hq
        rcases hq with hq | hq | hq
        · subst hq; exact hab
        · subst hq; exact hcd
        · exact hwt _ hq
    · rw [if_neg h1]
      by_cases h2 : d < a
      · rw [if_pos h2]
        obtain ⟨ihpw, ihwf⟩ := ih ⟨hpt, hwt⟩ hab
        refine ⟨?_, ?_⟩
        · rw [List.pairwise_cons]
          exact ⟨insertCoal_lowerBound hd h2, ihpw⟩
        · intro q hq
          rcases List.mem_cons.mp hq with hq | hq
          · subst hq; exact hcd
          · exact ihwf _ hq
      · rw [if_neg h2]
        exact ih ⟨hpt, hwt⟩ (by omega)

theorem TLMapInv_foldl_insertCoal {rs : List (ℕ × ℕ)} {M : TLMap}
    (hM : TLMapInv M) (hrs : ∀ r ∈ rs, r.1 < r.2) :
    TLMapInv (rs.foldl (fun m r => insertCoal r.1 r.2 m) M) := by
  induction rs generalizing M with
  | nil => exact hM
  | cons r t ih =>
    simp only [List.foldl_cons]
    exact ih (TLMapInv_insertCoal hM (hrs r (List.mem_cons_self _ _)))
      (fun q hq => hrs q (List.mem_cons_of_mem _ hq))

/-- The coverage test of `shouldCheckRead` (TentativeLoads.cpp:485-486):
`it = M->find(Offset)` (the first interval with `stop > Offset` in the
sorted map) followed by
`it != end && it.start() <= Offset && it.stop() >= Offset + Size`. -/
def covered (M : TLMap) (off size : ℕ) : Bool :=
  match M.find? (fun p => decide (off < p.2)) with
  | some p => decide (p.1 ≤ off) && decide (off + size ≤ p.2)
  | none => false

/-- On an invariant-respecting map, the single-interval coverage test agrees
with byte-wise membership of the whole (non-empty) range. -/
theorem covered_iff {M : TLMap} (hM : TLMapInv M) {off size : ℕ} (hsz : 0 < size) :
    covered M off size = true ↔ ∀ y, off ≤ y → y < off + size → memB y M = true := by
  induction M with
  | nil =>
    simp only [covered, List.find?_nil, memB_nil]
    constructor
    · intro h; cases h
    · intro h
      have := h off le_rfl (by omega)
      cases this
  | cons p t ih =>
    obtain ⟨c, d⟩ := p
    obtain ⟨hpw, hwf⟩ := hM
    rw [List.pairwise_cons] at hpw
    obtain ⟨hd, hpt⟩ := hpw
    have hwt : ∀ p ∈ t, p.1 < p.2 := fun p hp => hwf p (List.mem_cons_of_mem _ hp)
    by_cases hoff : off < d
    · rw [covered, List.find?_cons_of_pos _ (by simpa using hoff)]
      constructor
      · intro h y hy1 hy2
        simp only [Bool.and_eq_true, decide_eq_true_eq] at h
        rw [memB_cons]
        simp only [Bool.or_eq_true, Bool.and_eq_true, decide_eq_true_eq]
        left; constructor <;> omega
      · intro h
        have hcoff : c ≤ off := by
          have := h off le_rfl (by omega)
          rw [memB_cons] at this
          simp only [Bool.or_eq_true, Bool.and_eq_true, decide_eq_true_eq, memB,
            List.any_eq_true] at this
          rcases this with ⟨h1, _⟩ | ⟨q, hq, h1, h2⟩
          · exact h1
          · have := hd q hq; omega
        have hstop : off + size ≤ d := by
          by_contra hcon
          push_neg at hcon
          have := h d (by omega) (by omega)
          rw [memB_cons] at this
          simp only [Bool.or_eq_true, Bool.and_eq_true, decide_eq_true_eq, memB,
            List.any_eq_true] at this
          rcases this with ⟨_, h2⟩ | ⟨q, hq, h1, h2⟩
          · omega
          · have := hd q hq; omega
        simp only [Bool.and_eq_true, decide_eq_true_eq]
        exact ⟨hcoff, hstop⟩
    · push_neg at hoff
      rw [covered, List.find?_cons_of_neg _ (by simpa using hoff)]
      have htail : covered t off size = true ↔
          ∀ y, off ≤ y → y < off + size → memB y t = true := ih ⟨hpt, hwt⟩
      rw [covered] at htail
      rw [htail]
      constructor
      · intro h y hy1 hy2
        rw [memB_cons]
        simp only [Bool.or_eq_true]
        right; exact h y hy1 hy2
      · intro h y hy1 hy2
        have := h y hy1 hy2
        rw [memB_cons] at this
        simp only [Bool.or_eq_true, Bool.and_eq_true, decide_eq_true_eq] at this
        rcases this with ⟨h1, h2⟩ | h1
        · omega
        · exact h1

/-- The inner gap-collection loop of `markGoodBytes`
(TentativeLoads.cpp:186-205): starting from the interval returned by
`find(start)`, walk the intervals while `it.start() < stop`; whenever an
interval ends before `stop`, record the gap from its end to the next
interval's start (capped at `stop`), or to `stop` itself for the last
interval. -/
def gapEnd (stop : ℕ) : TLMap → ℕ
  | [] => stop
  | (c2, _) :: _ => min stop c2

def gapScan (stop : ℕ) : TLMap → List (ℕ × ℕ)
  | [] => []
  | (c, d) :: t =>
    if stop ≤ c then []
    else
      (if d < stop then
        (if d ≠ gapEnd stop t then [(d, gapEnd stop t)] else [])
       else []) ++ gapScan stop t

/-- The `addRanges` computation of `markGoodBytes`
(TentativeLoads.cpp:165-209) for an object whose store is the map `M`:
`find(start)` is the first interval with `stop > start` (modelled with
`dropWhile` on the sorted list); if there is none, or it starts at or past
`stop`, the whole range `[start, stop)` is missing; otherwise the gap to
its left plus the gaps collected by the scanning loop. -/
def addRangesFor (start stop : ℕ) (M : TLMap) : List (ℕ × ℕ) :=
  match M.dropWhile (fun p => decide (p.2 ≤ start)) with
  | [] => [(start, stop)]
  | (c, d) :: t =>
    if stop ≤ c then [(start, stop)]
    else (if start < c then [(start, c)] else []) ++ gapScan stop ((c, d) :: t)

theorem gapEnd_nil (stop : ℕ) : gapEnd stop [] = stop := rfl

theorem gapEnd_cons (stop c2 d2 : ℕ) (t : TLMap) :
    gapEnd stop ((c2, d2) :: t) = min stop c2 := rfl

theorem gapScan_cons (stop c d : ℕ) (t : TLMap) :
    gapScan stop ((c, d) :: t) =
      if stop ≤ c then []
      else
        (if d < stop then
          (if d ≠ gapEnd stop t then [(d, gapEnd stop t)] else [])
         else []) ++ gapScan stop t := rfl

/-- Every byte of `[head.start, stop)` is either already in the suffix of
the map handed to the scanning loop, or inside one of the collected gaps. -/
theorem gapScan_covers (stop : ℕ) :
    ∀ (t : TLMap) (c d y : ℕ), c ≤ y → y < stop →
      memB y ((c, d) :: t) = true ∨
        ∃ r ∈ gapScan stop ((c, d) :: t), r.1 ≤ y ∧ y < r.2 := by
  intro t
  induction t with
  | nil =>
    intro c d y hy1 hy2
    by_cases hyd : y < d
    · left
      rw [memB_cons]
      simp only [Bool.or_eq_true, Bool.and_eq_true, decide_eq_true_eq]
      left; exact ⟨hy1, hyd⟩
    · right
      push_neg at hyd
      rw [gapScan_cons, gapEnd_nil]
      rw [if_neg (by omega)]
      rw [if_pos (by omega)]
      rw [if_pos (by omega)]
      exact ⟨(d, stop), List.mem_append_left _ (List.mem_singleton_self _), hyd, hy2⟩
  | cons p t2 ih =>
    intro c d y hy1 hy2
    obtain ⟨c2, d2⟩ := p
    by_cases hyd : y < d
    · left
      rw [memB_cons]
      simp only [Bool.or_eq_true, Bool.and_eq_true, decide_eq_true_eq]
      left; exact ⟨hy1, hyd⟩
    · push_neg at hyd
      by_cases hyc2 : y < min stop c2
      · right
        rw [gapScan_cons, gapEnd_cons]
        rw [if_neg (by omega)]
        rw [if_pos (by omega)]
        rw [if_pos (by omega)]
        exact ⟨(d, min stop c2), List.mem_append_left _ (List.mem_cons_self _ _), hyd, hyc2⟩
      · push_neg at hyc2
        have hc2y : c2 ≤ y := by omega
        rcases ih c2 d2 y hc2y hy2 with hmem | ⟨r, hr, hry⟩
        · left
          rw [memB_cons, memB_cons]
          rw [memB_cons] at hmem
          simp only [Bool.or_eq_true] at hmem ⊢
          tauto
        · right
          rw [gapScan_cons]
          rw [if_neg (by omega)]
          refine ⟨r, List.mem_append_right _ hr, hry⟩

/-- Gaps collected by the scanning loop are non-empty, provided the suffix
of the map it walks satisfies the sort invariant. -/
theorem gapScan_wf (stop : ℕ) :
    ∀ (M : TLMap), M.Pairwise (fun p q => p.2 < q.1) →
      ∀ r ∈ gapScan stop M, r.1 < r.2 := by
  intro M
  induction M with
  | nil => intro _ r hr; cases hr
  | cons p t ih =>
    intro hpw r hr
    obtain ⟨c, d⟩ := p
    rw [List.pairwise_cons] at hpw
    obtain ⟨hd, hpt⟩ := hpw
    rw [gapScan_cons] at hr
    by_cases h1 : stop ≤ c
    · rw [if_pos h1] at hr; cases hr
    · rw [if_neg h1] at hr
      rcases List.mem_append.mp hr with hr | hr
      · by_cases h2 : d < stop
        · rw [if_pos h2] at hr
          cases t with
          | nil =>
            rw [gapEnd_nil, if_pos (by omega)] at hr
            rcases List.mem_singleton.mp hr with rfl
            simpa using h2
          | cons q t2 =>
            obtain ⟨c2, d2⟩ := q
            have hdc2 : d < c2 := hd (c2, d2) (List.mem_cons_self _ _)
            rw [gapEnd_cons, if_pos (by omega)] at hr
            rcases List.mem_singleton.mp hr with rfl
            show d < min stop c2
            omega
        · rw [if_neg h2] at hr; cases hr
      · exact ih hpt r hr

/-- Every byte of `[start, stop)` is either already present in the map or
covered by one of the ranges `markGoodBytes` is about to insert. -/
theorem addRangesFor_covers {M : TLMap} {start stop y : ℕ}
    (hy1 : start ≤ y) (hy2 : y < stop) :
    memB y M = true ∨ ∃ r ∈ addRangesFor start stop M, r.1 ≤ y ∧ y < r.2 := by
  unfold addRangesFor
  rcases hdw : M.dropWhile (fun p => decide (p.2 ≤ start)) with _ | ⟨⟨c, d⟩, t⟩
  · rw [hdw]
    exact Or.inr ⟨(start, stop), List.mem_singleton_self _, hy1, hy2⟩
  · rw [hdw]
    dsimp only
    by_cases h1 : stop ≤ c
    · rw [if_pos h1]
      exact Or.inr ⟨(start, stop), List.mem_singleton_self _, hy1, hy2⟩
    · rw [if_neg h1]
      by_cases hyc : y < c
      · refine Or.inr ⟨(start, c), ?_, hy1, hyc⟩
        rw [if_pos (by omega)]
        exact List.mem_append_left _ (List.mem_singleton_self _)
      · push_neg at hyc
        rcases gapScan_covers stop t c d y hyc hy2 with hmem | ⟨r, hr, hry⟩
        · left
          have hsub : ((c, d) :: t).Sublist M := by
            rw [← hdw]; exact List.dropWhile_sublist _
          rw [memB, List.any_eq_true] at hmem ⊢
          obtain ⟨p, hp, hpy⟩ := hmem
          exact ⟨p, hsub.subset hp, hpy⟩
        · exact Or.inr ⟨r, by
            rcases hstart : decide (start < c) with _ | _
            · rw [if_neg (by simpa using hstart)]
              rw [List.nil_append]
              exact hr
            · rw [if_pos (by simpa using hstart)]
              exact List.mem_append_right _ hr, hry⟩

/-- The ranges `markGoodBytes` inserts are non-empty, given the map
invariant and a non-empty target range. -/
theorem addRangesFor_wf {M : TLMap} (hM : TLMapInv M) {start stop : ℕ}
    (h : start < stop) :
    ∀ r ∈ addRangesFor start stop M, r.1 < r.2 := by
  unfold addRangesFor
  rcases hdw : M.dropWhile (fun p => decide (p.2 ≤ start)) with _ | ⟨⟨c, d⟩, t⟩
  · rw [hdw]
    intro r hr; rcases List.mem_singleton.mp hr with rfl; exact h
  · rw [hdw]
    dsimp only
    have hsub : ((c, d) :: t).Sublist M := by
      rw [← hdw]; exact List.dropWhile_sublist _
    have hpw : ((c, d) :: t).Pairwise (fun p q => p.2 < q.1) := hM.1.sublist hsub
    by_cases h1 : stop ≤ c
    · rw [if_pos h1]; intro r hr; rcases List.mem_singleton.mp hr with rfl; exact h
    · rw [if_neg h1]
      intro r hr
      by_cases h2 : start < c
      · rw [if_pos h2] at hr
        rcases List.mem_append.mp hr with hr | hr
        · rcases List.mem_singleton.mp hr with rfl; exact h2
        · exact gapScan_wf stop _ hpw r hr
      · rw [if_neg h2, List.nil_append] at hr
        exact gapScan_wf stop _ hpw r hr

/-- A memory object handle (`ShadowValue` base object): null pointer,
global variable (with its `isConstant()` flag), heap allocation index or
stack slot (frame number and index).  Equality is identity. -/
inductive MemObj
  | nullPtr : MemObj
  | gv (i : ℕ) (isConst : Bool) : MemObj
  | heap (i : ℕ) : MemObj
  | stack (frame : ℕ) (i : ℕ) : MemObj
deriving DecidableEq, Repr

/-- `Ptr.V.isGV() && Ptr.V.u.GV->G->isConstant()`. -/
def MemObj.isConstGlobal : MemObj → Bool
  | gv _ c => c
  | _ => false

/-- `Ptr.V.isNullOrConst()`: a null pointer or a constant (in particular a
constant global). -/
def MemObj.isNullOrConst : MemObj → Bool
  | nullPtr => true
  | gv _ c => c
  | _ => false

/-- `ValSetType` of an improved value set. -/
inductive ValSetType
  | PB | FD | Scalar | Other
deriving DecidableEq, Repr

/-- An `ImprovedVal` of pointer kind: base object plus byte offset. -/
structure ImpVal where
  V : MemObj
  offset : ℕ
deriving DecidableEq, Repr

/-- A pointer operand as seen through `getIVOrSingleVal`: either an
`ImprovedValSetSingle` (`ivs`, with its wholly-unknown flag, set type and
value list) or a direct single value pair. -/
inductive PtrOperand
  | ivs (whollyUnknown : Bool) (setType : ValSetType) (values : List ImpVal)
  | single (setType : ValSetType) (value : ImpVal)
deriving DecidableEq, Repr

/-- `tryGetUniqueIV`: succeeds exactly when the operand holds one unique
(non-overdefined) value, yielding its set type and the value. -/
def uniqueIV : PtrOperand → Option (ValSetType × ImpVal)
  | .single st v => some (st, v)
  | .ivs wu st vs =>
    if wu then none
    else match vs with
      | [v] => some (st, v)
      | _ => none

/-- The instruction's own improved-value result `SI.i.PB`: an
`ImprovedValSetSingle` (with its `isWhollyUnknown` flag) or an
`ImprovedValSetMulti` (a list of `(range, value)` entries where the `Bool`
records whether that range's value `isWhollyUnknown`). -/
inductive ResultPB
  | single (whollyUnknown : Bool)
  | multi (ranges : List ((ℕ × ℕ) × Bool))
deriving DecidableEq, Repr

/-- A block-level trust snapshot (`TLLocalStore` as consulted through
`getReadableStoreFor` / `getWritableTLStore`): a map from objects to their
trusted-interval maps, plus the `allOthersClobbered` flag.  (The per-frame
structure of `TLLocalStore` only distinguishes stack objects of different
recursion depths, which the `MemObj.stack` frame component captures.) -/
structure TLStore where
  objs : List (MemObj × TLMap)
  allOthersClobbered : Bool
deriving DecidableEq, Repr

/-- `getReadableStoreFor`: look an object up in the snapshot. -/
def findMap (o : MemObj) : List (MemObj × TLMap) → Option TLMap
  | [] => none
  | (k, m) :: t => if k = o then some m else findMap o t

/-- Replace an object's map, creating the entry when absent
(`getWritableTLStore` with `isNewStore`). -/
def setMap (o : MemObj) (m : TLMap) : List (MemObj × TLMap) → List (MemObj × TLMap)
  | [] => [(o, m)]
  | (k, m0) :: t => if k = o then (k, m) :: t else (k, m0) :: setMap o m t

/-- Byte-level trust relation of a snapshot: an object present in the map is
trusted exactly on the bytes of its interval set (`shouldCheckRead`'s
covered test reads them); an absent object is entirely trusted unless
`allOthersClobbered` is set. -/
def trusted (S : TLStore) (o : MemObj) (x : ℕ) : Bool :=
  match findMap o S.objs with
  | some M => memB x M
  | none => !S.allOthersClobbered

/-- `markGoodBytes` (TentativeLoads.cpp:127-223): in a check-emitting
context, under full clobber, for a pointer with a unique pointer-typed
target that is not a constant global, insert the missing sub-ranges of
`[Offset+off, Offset+off+Len)` into the object's interval map. -/
def markGoodBytes (GoodPtr : PtrOperand) (len : ℕ) (contextEnabled : Bool)
    (S : TLStore) (off : ℕ := 0) : TLStore :=
  if !contextEnabled then S
  else if !S.allOthersClobbered then S
  else
    match uniqueIV GoodPtr with
    | none => S
    | some (st, v) =>
      if st ≠ ValSetType.PB then S
      else if v.V.isConstGlobal then S
      else
        let start := v.offset + off
        let stop := v.offset + off + len
        let addRanges :=
          match findMap v.V S.objs with
          | none => [(start, stop)]
          | some M => addRangesFor start stop M
        let newMap :=
          addRanges.foldl (fun m r => insertCoal r.1 r.2 m) ((findMap v.V S.objs).getD [])
        if addRanges.isEmpty then S
        else { S with objs := setMap v.V newMap S.objs }

/-- `shouldCheckRead` (TentativeLoads.cpp:453-490): reads from null or a
constant global never need a check; an object with no recorded store needs
one exactly when `allOthersClobbered`; otherwise the read needs a check
unless a single recorded interval covers the whole accessed range. -/
def shouldCheckRead (Ptr : ImpVal) (size : ℕ) (S : TLStore) : Bool :=
  if Ptr.V = MemObj.nullPtr then false
  else if Ptr.V.isConstGlobal then false
  else
    match findMap Ptr.V S.objs with
    | none => S.allOthersClobbered
    | some M => !(covered M Ptr.offset size)

/-- The tri-state per-instruction check requirement. -/
inductive ThreadLocalState
  | TLS_MUSTCHECK | TLS_NOCHECK | TLS_NEVERCHECK
deriving DecidableEq, Repr

open ThreadLocalState

/-- Numeric value of the C++ `enum ThreadLocalState`, whose `std::min` use
in `shouldCheckLoad` requires `TLS_MUSTCHECK` to be the least element. -/
def tlsVal : ThreadLocalState → ℕ
  | TLS_MUSTCHECK => 0
  | TLS_NOCHECK => 1
  | TLS_NEVERCHECK => 2

/-- `std::min` on the check-requirement enumeration. -/
def tlsMin (a b : ThreadLocalState) : ThreadLocalState :=
  if tlsVal a ≤ tlsVal b then a else b

/-- Analysis-wide flags (`GlobalIHP`). -/
structure Globals where
  programSingleThreaded : Bool
deriving DecidableEq, Repr

/-- `IntegrationAttempt::shouldCheckCopy` (TentativeLoads.cpp:492-527). -/
def shouldCheckCopy (S : TLStore) (PtrOp : PtrOperand) (lenOp : Option ℕ)
    (copyVals : Option (List ((ℕ × ℕ) × Bool))) : ThreadLocalState :=
  match lenOp with
  | none => TLS_NEVERCHECK
  | some len =>
    match uniqueIV PtrOp with
    | none => TLS_NEVERCHECK
    | some (st, v) =>
      if st ≠ ValSetType.PB then TLS_NEVERCHECK
      else if len = 0 then TLS_NEVERCHECK
      else
        match copyVals with
        | none => TLS_NEVERCHECK
        | some vals =>
          if vals.isEmpty then TLS_NEVERCHECK
          else if vals.any (fun r =>
              !r.2 && shouldCheckRead ⟨v.V, v.offset + r.1.1⟩ (r.1.2 - r.1.1) S)
          then TLS_MUSTCHECK
          else TLS_NOCHECK

/-- `IntegrationAttempt::shouldCheckLoadFrom` (TentativeLoads.cpp:529-556). -/
def shouldCheckLoadFrom (res : Option ResultPB) (Ptr : ImpVal) (loadSize : ℕ)
    (S : TLStore) : ThreadLocalState :=
  if Ptr.V.isNullOrConst then TLS_NEVERCHECK
  else
    match res with
    | some (ResultPB.multi ranges) =>
      if ranges.any (fun r =>
          !r.2 && shouldCheckRead ⟨Ptr.V, Ptr.offset + r.1.1⟩ (r.1.2 - r.1.1) S)
      then TLS_MUSTCHECK
      else TLS_NOCHECK
    | _ => if shouldCheckRead Ptr loadSize S then TLS_MUSTCHECK else TLS_NOCHECK

/-- The result-accumulation loop of `shouldCheckLoad`
(TentativeLoads.cpp:593-598): fold `std::min` over the pointer's possible
targets, stopping once `TLS_MUSTCHECK` is reached. -/
def checkLoadFroms (res : Option ResultPB) (loadSize : ℕ) (S : TLStore) :
    List ImpVal → ThreadLocalState → ThreadLocalState
  | [], r => r
  | v :: vs, r =>
    if r = TLS_MUSTCHECK then r
    else checkLoadFroms res loadSize S vs (tlsMin (shouldCheckLoadFrom res v loadSize S) r)

/-- Shadow instructions, restricted to the attributes the tentative-load
analysis consults.  Pointer operands are given as resolved `PtrOperand`s and
statically known lengths as `Option ℕ` (`tryGetConstantInt`).  `copyVals`
is the instruction's entry in `GlobalIHP->memcpyValues`. -/
inductive SInstr
  | load (ptr : PtrOperand) (size : ℕ) (vol ordered atomicSimple : Bool)
      (res : Option ResultPB)
  | store (ptr : PtrOperand) (valSize : ℕ)
  | atomicRMW (ptr : PtrOperand) (size : ℕ) (atomicSimple : Bool) (res : Option ResultPB)
  | atomicCmpXchg (ptr : PtrOperand) (size : ℕ) (atomicSimple : Bool) (res : Option ResultPB)
  | fence
  | allocaInst (res : PtrOperand) (storeSize : ℕ)
  | memsetCall (dst : PtrOperand) (len : Option ℕ)
  | memTransfer (dst src : PtrOperand) (len : Option ℕ)
      (copyVals : Option (List ((ℕ × ℕ) × Bool)))
  | readCall (buf : PtrOperand) (readSize : ℕ)
  | mallocCall (res : PtrOperand) (heapSize : ℕ)
  | reallocCall (resPtr oldPtr : PtrOperand) (lenArg : Option ℕ) (heapSize : ℕ)
      (copyVals : Option (List ((ℕ × ℕ) × Bool)))
  | yieldCall (pessimistic : Bool) (lockDomain : Option (List MemObj))
  | otherCall
  | otherInstr
deriving DecidableEq, Repr

/-- `ShadowInstruction::readsMemoryDirectly`. -/
def SInstr.readsMemoryDirectly : SInstr → Bool
  | .load _ _ _ _ _ _ => true
  | .atomicRMW _ _ _ _ => true
  | .atomicCmpXchg _ _ _ _ => true
  | .memTransfer _ _ _ _ => true
  | .reallocCall _ _ _ _ _ => true
  | _ => false

/-- `ShadowInstruction::isCopyInst` (TentativeLoads.cpp:633-660). -/
def SInstr.isCopyInst : SInstr → Bool
  | .memTransfer _ _ _ _ => true
  | .reallocCall _ _ _ _ _ => true
  | _ => false

/-- `ShadowInstruction::hasOrderingConstraint`. -/
def SInstr.hasOrderingConstraint : SInstr → Bool
  | .load _ _ _ ordered _ _ => ordered
  | .atomicRMW _ _ _ _ => true
  | .atomicCmpXchg _ _ _ _ => true
  | _ => false

/-- `SI.i.PB` for the instruction kinds whose result the classifier
inspects. -/
def SInstr.resPB : SInstr → Option ResultPB
  | .load _ _ _ _ _ res => res
  | .atomicRMW _ _ _ res => res
  | .atomicCmpXchg _ _ _ res => res
  | _ => none

/-- `inst_is<CallInst> || inst_is<InvokeInst>`. -/
def SInstr.isCallOrInvoke : SInstr → Bool
  | .memsetCall _ _ => true
  | .memTransfer _ _ _ _ => true
  | .readCall _ _ => true
  | .mallocCall _ _ => true
  | .reallocCall _ _ _ _ _ => true
  | .yieldCall _ _ => true
  | .otherCall => true
  | _ => false

/-- The early-out test of `shouldCheckLoad` (TentativeLoads.cpp:565-568):
`dyn_cast<ImprovedValSetSingle>(SI.i.PB)` succeeded and the set is wholly
unknown. -/
def isWhollyUnknownSingle : Option ResultPB → Bool
  | some (ResultPB.single wu) => wu
  | _ => false

/-- `IntegrationAttempt::shouldCheckLoad` (TentativeLoads.cpp:558-631). -/
def shouldCheckLoad (g : Globals) (S : TLStore) (SI : SInstr) : ThreadLocalState :=
  if g.programSingleThreaded then TLS_NEVERCHECK
  else if SI.readsMemoryDirectly && !SI.isCopyInst && isWhollyUnknownSingle SI.resPB then
    TLS_NEVERCHECK
  else
    match SI with
    | .load ptr size _ ordered _ res =>
      if ordered then TLS_MUSTCHECK
      else
        match ptr with
        | .ivs wu st vals =>
          if wu || st ≠ ValSetType.PB then TLS_NEVERCHECK
          else checkLoadFroms res size S vals TLS_NEVERCHECK
        | .single st v =>
          if st ≠ ValSetType.PB then TLS_NEVERCHECK
          else shouldCheckLoadFrom res v size S
    | .memTransfer _ src len copyVals => shouldCheckCopy S src len copyVals
    | .atomicRMW _ _ _ _ => TLS_MUSTCHECK
    | .atomicCmpXchg _ _ _ _ => TLS_MUSTCHECK
    | .reallocCall _ oldPtr lenArg _ copyVals => shouldCheckCopy S oldPtr lenArg copyVals
    | _ => TLS_NEVERCHECK

/-- `markAllObjectsTentative` (TentativeLoads.cpp:116-125): empty the map,
set `allOthersClobbered`. -/
def markAllObjectsTentative (_S : TLStore) : TLStore :=
  { objs := [], allOthersClobbered := true }

/-- `walkCopyInst` (TentativeLoads.cpp:303-312): with a constant length,
mark the `CopyTo` then the `CopyFrom` ranges good; otherwise a no-op. -/
def walkCopyInst (copyFrom copyTo : PtrOperand) (lenOp : Option ℕ)
    (contextEnabled : Bool) (S : TLStore) : TLStore :=
  match lenOp with
  | none => S
  | some len =>
    markGoodBytes copyFrom len contextEnabled (markGoodBytes copyTo len contextEnabled S)

/-- The per-object clobber of the declared-lock-domain branch of
`updateTLStore` (TentativeLoads.cpp:424-437): `getWritableTLStore` creates
the object's interval map when absent, then `M->clear()` empties it. -/
def clearDomainObject (S : TLStore) (o : MemObj) : TLStore :=
  { S with objs := setMap o [] S.objs }

/-- `updateTLStore` (TentativeLoads.cpp:315-451).  `tls` is the
instruction's `isThreadLocal` field as read by the atomic branch. -/
def updateTLStore (SI : SInstr) (tls : ThreadLocalState) (contextEnabled : Bool)
    (S : TLStore) : TLStore :=
  match SI with
  | .allocaInst res storeSize => markGoodBytes res storeSize contextEnabled S
  | .load ptr size vol ordered atSimple _ =>
    if (vol || ordered) && !atSimple then markAllObjectsTentative S
    else markGoodBytes ptr size contextEnabled S
  | .store ptr valSize => markGoodBytes ptr valSize contextEnabled S
  | .atomicRMW ptr size atSimple _ =>
    if tls = TLS_MUSTCHECK && !atSimple then markAllObjectsTentative S
    else markGoodBytes ptr size contextEnabled S
  | .atomicCmpXchg ptr size atSimple _ =>
    if tls = TLS_MUSTCHECK && !atSimple then markAllObjectsTentative S
    else markGoodBytes ptr size contextEnabled S
  | .fence => markAllObjectsTentative S
  | .memsetCall dst len =>
    match len with
    | none => S
    | some n => markGoodBytes dst n contextEnabled S
  | .memTransfer dst src len _ => walkCopyInst dst src len contextEnabled S
  | .readCall buf readSize => markGoodBytes buf readSize contextEnabled S
  | .mallocCall res heapSize => markGoodBytes res heapSize contextEnabled S
  | .reallocCall resPtr oldPtr lenArg heapSize _ =>
    markGoodBytes resPtr heapSize contextEnabled
      (walkCopyInst resPtr oldPtr lenArg contextEnabled S)
  | .yieldCall pess dom =>
    if pess then S
    else
      match dom with
      | some objs => objs.foldl clearDomainObject S
      | none => markAllObjectsTentative S
  | .otherCall => S
  | .otherInstr => S

/-- `IntegrationAttempt::TLAnalyseInstruction` (TentativeLoads.cpp:970-1017),
threading the instruction's `isThreadLocal` field and the block snapshot.
(`squashUnavailableObjects` / `replaceUnavailableObjects` touch the
speculative value store and the materialization registry, not the trust
snapshot, and are outside this model.) -/
def TLAnalyseInstruction (g : Globals) (commitDisabledHere secondPass : Bool)
    (SI : SInstr) (tls : ThreadLocalState) (S : TLStore) :
    ThreadLocalState × TLStore :=
  if SI.readsMemoryDirectly then
    if secondPass && tls = TLS_MUSTCHECK then (tls, S)
    else
      let tls2 := if tls ≠ TLS_NEVERCHECK then shouldCheckLoad g S SI else tls
      (tls2, updateTLStore SI tls2 (!commitDisabledHere) S)
  else if SI.isCallOrInvoke then
    (tls, updateTLStore SI tls (!commitDisabledHere) S)
  else if tls = TLS_NEVERCHECK then (tls, S)
  else (tls, updateTLStore SI tls (!commitDisabledHere) S)

/-- Modelled from the spec: the snapshot-level merge driver (`TLMerger` /
`MergeBlockVisitor::doMerge`, invoked from `doTLStoreMerge` and
`doTLCallMerge`, whose definition lies outside the provided sources).  Per
the spec: one output snapshot where, per object, a byte is trusted only if
it is trusted on every incoming edge (per-object interval sets are
intersected with `TLMapPointer::mergeStores`), and `allOthersClobbered` of
the result is the logical OR across inputs.  An object recorded on only one
side keeps its interval set when the other side trusts absent objects
(`allOthersClobbered` false there) and is emptied otherwise. -/
def mergeSnapshots (A B : TLStore) : TLStore :=
  let keys := A.objs.map Prod.fst ++ B.objs.map Prod.fst
  { objs := keys.map (fun o =>
      (o, match findMap o A.objs, findMap o B.objs with
          | some MA, some MB => mergeStores MA MB
          | some MA, none => if B.allOthersClobbered then [] else MA
          | none, some MB => if A.allOthersClobbered then [] else MB
          | none, none => []))
    allOthersClobbered := A.allOthersClobbered || B.allOthersClobbered }

/-- Modelled from the spec: a merge over several incoming snapshots (CFG
predecessors, live return blocks, loop edges) combines them pairwise; the
spec requires the outcome not to depend on the traversal order. -/
def mergeMany (first : TLStore) (rest : List TLStore) : TLStore :=
  rest.foldl mergeSnapshots first

theorem findMap_map_keys (o : MemObj) (keys : List MemObj) (f : MemObj → TLMap) :
    findMap o (keys.map (fun k => (k, f k))) =
      if o ∈ keys then some (f o) else none := by
  induction keys with
  | nil => simp [findMap]
  | cons k t ih =>
    simp only [List.map_cons, findMap, ih]
    by_cases hk : k = o
    · subst hk
      simp [List.mem_cons]
    · rw [if_neg hk]
      by_cases ho : o ∈ t
      · simp [ho, List.mem_cons]
      · have : ¬(o = k) := fun h => hk h.symm
        simp [ho, List.mem_cons, this]

theorem findMap_isSome (o : MemObj) (l : List (MemObj × TLMap)) :
    (findMap o l).isSome = true ↔ o ∈ l.map Prod.fst := by
  induction l with
  | nil => simp [findMap]
  | cons p t ih =>
    obtain ⟨k, m⟩ := p
    simp only [findMap, List.map_cons, List.mem_cons]
    by_cases hk : k = o
    · subst hk; simp
    · rw [if_neg hk, ih]
      constructor
      · intro h; exact Or.inr h
      · intro h
        rcases h with h | h
        · exact absurd h.symm hk
        · exact h

/-- Byte-level meaning of a two-snapshot merge: a byte is trusted in the
result exactly when it is trusted in both inputs. -/
theorem trusted_mergeSnapshots (A B : TLStore) (o : MemObj) (x : ℕ) :
    trusted (mergeSnapshots A B) o x = (trusted A o x && trusted B o x) := by
  unfold trusted mergeSnapshots
  simp only
  rw [findMap_map_keys]
  by_cases hkeys : o ∈ A.objs.map Prod.fst ++ B.objs.map Prod.fst
  · rw [if_pos hkeys]
    rcases hA : findMap o A.objs with _ | MA <;> rcases hB : findMap o B.objs with _ | MB
    · exfalso
      rcases List.mem_append.mp hkeys with h | h
      · have := (findMap_isSome o A.objs).mpr h
        rw [hA] at this
        cases this
      · have := (findMap_isSome o B.objs).mpr h
        rw [hB] at this
        cases this
    · rcases hAF : A.allOthersClobbered with _ | _ <;> simp [hAF, memB_nil]
    · rcases hBF : B.allOthersClobbered with _ | _ <;> simp [hBF, memB_nil]
    · exact memB_mergeStores MA MB x
  · rw [if_neg hkeys]
    have hA : findMap o A.objs = none := by
      rcases h : findMap o A.objs with _ | MA
      · rfl
      · exfalso
        refine hkeys (List.mem_append_left _ ((findMap_isSome o A.objs).mp ?_))
        rw [h]; rfl
    have hB : findMap o B.objs = none := by
      rcases h : findMap o B.objs with _ | MB
      · rfl
      · exfalso
        refine hkeys (List.mem_append_right _ ((findMap_isSome o B.objs).mp ?_))
        rw [h]; rfl
    rw [hA, hB]
    rw [Bool.not_or]

theorem mergeSnapshots_flag (A B : TLStore) :
    (mergeSnapshots A B).allOthersClobbered =
      (A.allOthersClobbered || B.allOthersClobbered) := rfl

/-- Byte-level meaning of an n-way merge: a byte is trusted in the result
exactly when it is trusted in every input. -/
theorem trusted_mergeMany (first : TLStore) (rest : List TLStore) (o : MemObj) (x : ℕ) :
    trusted (mergeMany first rest) o x =
      (trusted first o x && rest.all (fun S => trusted S o x)) := by
  induction rest generalizing first with
  | nil => simp [mergeMany]
  | cons S t ih =>
    show trusted (mergeMany (mergeSnapshots first S) t) o x = _
    rw [ih, trusted_mergeSnapshots, List.all_cons, Bool.and_assoc]

theorem mergeMany_flag (first : TLStore) (rest : List TLStore) :
    (mergeMany first rest).allOthersClobbered =
      (first.allOthersClobbered || rest.any (fun S => S.allOthersClobbered)) := by
  induction rest generalizing first with
  | nil => simp [mergeMany]
  | cons S t ih =>
    show (mergeMany (mergeSnapshots first S) t).allOthersClobbered = _
    rw [ih, mergeSnapshots_flag, List.any_cons, Bool.or_assoc]

/-- The per-block instruction loop of `findTentativeLoadsInLoop`
(TentativeLoads.cpp:1110-1131) restricted to ordinary instructions: run
`TLAnalyseInstruction` on each instruction in turn, threading the
snapshot; each instruction's `isThreadLocal` field is carried next to it. -/
def walkBlock (g : Globals) (commitDisabledHere secondPass : Bool) :
    List (SInstr × ThreadLocalState) → TLStore →
      List (SInstr × ThreadLocalState) × TLStore
  | [], S => ([], S)
  | (si, t) :: rest, S =>
    let r := TLAnalyseInstruction g commitDisabledHere secondPass si t S
    let rr := walkBlock g commitDisabledHere secondPass rest r.2
    ((si, r.1) :: rr.1, rr.2)

/-- Outcome of the two-phase walk of an unbounded loop, recording the
header's incoming snapshot and the instruction states of each phase. -/
structure TwoPhaseResult where
  phase1Header : TLStore
  phase1Body : List (SInstr × ThreadLocalState)
  phase2Header : TLStore
  phase2Body : List (SInstr × ThreadLocalState)
  exitStore : TLStore

/-- `findTentativeLoadsInUnboundedLoop` (TentativeLoads.cpp:1019-1043) for a
single-block loop whose header is also the latch, with a live back edge:
the header receives the preheader's snapshot and phase 1 walks the body
with `secondPass = false` (`latchToHeader` only affects which successors
receive snapshot references); then `BB->tlStore = getBB(latchIdx)->tlStore`
hands the latch result to the header, and phase 2 re-walks the body with
`secondPass = true`. -/
def findTentativeLoadsTwoPhase (g : Globals) (commitDisabledHere : Bool)
    (body : List (SInstr × ThreadLocalState)) (preheaderStore : TLStore) :
    TwoPhaseResult :=
  let r1 := walkBlock g commitDisabledHere false body preheaderStore
  let r2 := walkBlock g commitDisabledHere true r1.1 r1.2
  { phase1Header := preheaderStore
    phase1Body := r1.1
    phase2Header := r1.2
    phase2Body := r2.1
    exitStore := r2.2 }

/-- `SVAAResult` of `aliasSVs`. -/
inductive SVAAResult
  | SVNoAlias | SVMayAlias | SVPartialAlias | SVMustAlias
deriving DecidableEq, Repr

/-- The inputs of one `DSEHandleWrite` call that come from the external
alias/value layer: the alias verdict against the candidate write, whether
`getBaseAndConstantOffset` resolves the writer's pointer, the
`GetDefinedRange` answer `(FirstDef, FirstNotDef)` (`none` when it fails),
and the writer's byte size. -/
structure WriteArgs where
  aliasR : SVAAResult
  baseOK : Bool
  definedRange : Option (ℕ × ℕ)
  writeSize : ℕ
deriving DecidableEq, Repr

/-- The marking loop of `DSEHandleWrite` (DSE.cpp:348-355):
`for(i = 0; i < Size && Finished; ++i)` sets the bits inside
`[FirstDef, FirstNotDef)` and clears `Finished` at the first unset bit
outside it — which also exits the loop.  `fuel` counts the remaining
iterations (`Size - i`). -/
def dseMarkGo (firstDef firstNotDef : ℕ) : List Bool → ℕ → ℕ → List Bool × Bool
  | bytes, _, 0 => (bytes, true)
  | bytes, i, fuel + 1 =>
    if firstDef ≤ i ∧ i < firstNotDef then
      dseMarkGo firstDef firstNotDef (bytes.set i true) (i + 1) fuel
    else if bytes.getD i false then
      dseMarkGo firstDef firstNotDef bytes (i + 1) fuel
    else (bytes, false)

/-- `IntegrationAttempt::DSEHandleWrite` (DSE.cpp:305-369): with no bitmap
(`deadBytes` null, i.e. unknown candidate size) nothing happens; otherwise
compute the overlapped sub-range of the candidate from the alias verdict
and run the marking loop, returning the updated bitmap and whether the
candidate is now fully covered. -/
def DSEHandleWrite (w : WriteArgs) (deadBytes : Option (List Bool)) :
    Option (List Bool) × Bool :=
  match deadBytes with
  | none => (none, false)
  | some bytes =>
    if !w.baseOK then (some bytes, false)
    else
      let size := bytes.length
      let fd_fnd : ℕ × ℕ :=
        match w.aliasR with
        | .SVMayAlias => w.definedRange.getD (0, 0)
        | .SVPartialAlias => w.definedRange.getD (0, 0)
        | .SVMustAlias => (0, min w.writeSize size)
        | .SVNoAlias => (0, 0)
      if fd_fnd.1 ≠ fd_fnd.2 then
        let r := dseMarkGo fd_fnd.1 fd_fnd.2 bytes 0 size
        (some r.1, r.2)
      else (some bytes, false)

/-- Storage kind of the candidate write's base object
(`isLifetimeEnd`'s case split, DSE.cpp:383-409). -/
inductive AllocKind
  | stackAlloc | mallocLike | otherAlloc
deriving DecidableEq, Repr

/-- One candidate write's search parameters (`tryKillWriterTo`):
the candidate's byte size (`none` models `AliasAnalysis::UnknownSize`),
whether `getBaseAndConstantOffset(StorePtr)` succeeds, and the storage
kind of the written object. -/
structure DSEQuery where
  size : Option ℕ
  baseOK : Bool
  allocKind : AllocKind
deriving DecidableEq, Repr

/-- An instruction as seen by the dead-store forward walk, carrying the
answers of the external alias queries it triggers.  For a `callInst`,
`readFile` is its entry in `resolvedReadCalls` (read size plus the write
arguments of the buffer), `freesStoreBase` records
`isFreeCall` with `getBaseObject(arg0)` equal to the candidate's base, and
`mayRefStorePtr` is `callUsesPtr`'s mod-ref answer.  For a `loadInstr`,
`valueKnownIndep` records that the load `mayBeReplaced` and its improved
value is available independent of memory (DSE.cpp:180-195). -/
inductive DSEInstr
  | term (numSuccessors : ℕ) (allocFrameIsHere : Bool)
  | mti (unusedWriter : Bool) (srcAlias : SVAAResult) (len : Option ℕ) (dst : WriteArgs)
  | memset (len : Option ℕ) (dst : WriteArgs)
  | callInst (freesStoreBase : Bool) (readFile : Option (ℕ × WriteArgs))
      (mayRefStorePtr : Bool)
  | loadInstr (aliasR : SVAAResult) (valueKnownIndep : Bool)
  | storeInstr (w : WriteArgs)
  | otherDSEInstr
deriving DecidableEq, Repr

/-- `IntegrationAttempt::isLifetimeEnd` (DSE.cpp:383-409): for a stack
allocation, a terminator with no successors in the frame owning the
alloca; for a malloc-like allocation, a `free` call whose argument's base
is the allocation. -/
def isLifetimeEnd (ak : AllocKind) : DSEInstr → Bool
  | .term numSucc here =>
    match ak with
    | .stackAlloc => numSucc == 0 && here
    | _ => false
  | .callInst frees _ _ =>
    match ak with
    | .mallocLike => frees
    | _ => false
  | _ => false

/-- Result of `walkInstruction`. -/
inductive WalkInstructionResult
  | WIRContinue | WIRStopThisPath | WIRStopWholeWalk
deriving DecidableEq, Repr

/-- `IntegrationAttempt::noteBytesWrittenBy` (DSE.cpp:116-222), the body of
`WriterUsedWalker::walkInstruction`, returning the walk verdict and the
(possibly updated) bitmap. -/
def noteBytesWrittenBy (q : DSEQuery) (I : DSEInstr)
    (deadBytes : Option (List Bool)) :
    WalkInstructionResult × Option (List Bool) :=
  if isLifetimeEnd q.allocKind I then (.WIRStopThisPath, deadBytes)
  else
    match I with
    | .mti unused srcAlias len dst =>
      if !unused && srcAlias ≠ SVAAResult.SVNoAlias then (.WIRStopWholeWalk, deadBytes)
      else
        match len with
        | some n =>
          let r := DSEHandleWrite { dst with writeSize := n } deadBytes
          if r.2 then (.WIRStopThisPath, r.1) else (.WIRContinue, r.1)
        | none => (.WIRContinue, deadBytes)
    | .memset len dst =>
      match len with
      | some n =>
        let r := DSEHandleWrite { dst with writeSize := n } deadBytes
        if r.2 then (.WIRStopThisPath, r.1) else (.WIRContinue, r.1)
      | none => (.WIRContinue, deadBytes)
    | .callInst _ readFile _ =>
      match readFile with
      | some (sz, w) =>
        let r := DSEHandleWrite { w with writeSize := sz } deadBytes
        if r.2 then (.WIRStopThisPath, r.1) else (.WIRContinue, r.1)
      | none => (.WIRContinue, deadBytes)
    | .loadInstr aliasR known =>
      if known then (.WIRContinue, deadBytes)
      else if aliasR ≠ SVAAResult.SVNoAlias then (.WIRStopWholeWalk, deadBytes)
      else (.WIRContinue, deadBytes)
    | .storeInstr w =>
      let r := DSEHandleWrite w deadBytes
      if r.2 then (.WIRStopThisPath, r.1) else (.WIRContinue, r.1)
    | _ => (.WIRContinue, deadBytes)

/-- Modelled from the spec: `ForwardIAWalker::walk` (outside the provided
sources) explores every forward path from the candidate write, duplicating
the bitmap context at forks (`copyContext`), and calls `walkInstruction`
(i.e. `noteBytesWrittenBy`) on each visited instruction:
`WIRStopThisPath` ends the path successfully, `WIRStopWholeWalk` aborts the
whole search (`writeUsed = true` in `WriterUsedWalker::walkInstruction`,
DSE.cpp:224-234).  A call is entered — its instructions appearing inline in
the path — only when `shouldEnterCall` (`callUsesPtr`, DSE.cpp:236-247)
says it may reference the written object; an unexpanded call that may
reference it aborts through `blockedByUnexpandedCall` (DSE.cpp:249-254).
`pathAborts` says whether one path aborts the search. -/
def pathAborts (q : DSEQuery) : List DSEInstr → Option (List Bool) → Bool
  | [], _ => false
  | i :: rest, ctx =>
    let r := noteBytesWrittenBy q i ctx
    match r.1 with
    | .WIRStopThisPath => false
    | .WIRStopWholeWalk => true
    | .WIRContinue =>
      match i with
      | .callInst _ readFile mayRef =>
        if readFile.isSome then pathAborts q rest r.2
        else if mayRef then true
        else pathAborts q rest r.2
      | _ => pathAborts q rest r.2

/-- Modelled from the spec: the whole walk's `writeUsed` flag — some
forward path aborts. -/
def walkPathsWriteUsed (q : DSEQuery) (paths : List (List DSEInstr))
    (init : Option (List Bool)) : Bool :=
  paths.any (fun p => pathAborts q p init)

/-- `IntegrationAttempt::tryKillWriterTo` (DSE.cpp:271-303): allocate a
bitmap of `Size` `false` bits when the size is known (otherwise the
context stays null), give up when the written pointer has no resolvable
base, run the walk, and on `!writeUsed` set `INSTSTATUS_UNUSED_WRITER` and
return true.  The pair returned is (return value, status-bit set). -/
def tryKillWriterTo (q : DSEQuery) (paths : List (List DSEInstr)) : Bool × Bool :=
  let initialCtx := q.size.map (fun s => List.replicate s false)
  if !q.baseOK then (false, false)
  else
    let used := walkPathsWriteUsed q paths initialCtx
    (!used, !used)

/-- Every object map recorded in a snapshot satisfies the `IntervalMap`
invariant. -/
def StoreInv (S : TLStore) : Prop := ∀ p ∈ S.objs, TLMapInv p.2

theorem findMap_setMap_self (o : MemObj) (m : TLMap) (l : List (MemObj × TLMap)) :
    findMap o (setMap o m l) = some m := by
  induction l with
  | nil => simp [setMap, findMap]
  | cons p t ih =>
    obtain ⟨k, m0⟩ := p
    by_cases hk : k = o
    · subst hk; simp [setMap, findMap]
    · simp only [setMap, findMap, if_neg hk, ih]

theorem findMap_setMap_ne (o k : MemObj) (m : TLMap) (l : List (MemObj × TLMap))
    (h : k ≠ o) : findMap k (setMap o m l) = findMap k l := by
  induction l with
  | nil =>
    have hok : ¬o = k := fun hh => h hh.symm
    simp [setMap, findMap, hok]
  | cons p t ih =>
    obtain ⟨k0, m0⟩ := p
    by_cases hk : k0 = o
    · subst hk
      simp only [setMap, if_pos rfl, findMap]
      rw [if_neg (fun hh => h hh.symm), if_neg (fun hh => h hh.symm)]
    · simp only [setMap, if_neg hk, findMap, ih]

theorem findMap_mem {o : MemObj} {l : List (MemObj × TLMap)} {m : TLMap}
    (h : findMap o l = some m) : (o, m) ∈ l := by
  induction l with
  | nil => cases h
  | cons p t ih =>
    obtain ⟨k, m0⟩ := p
    by_cases hk : k = o
    · subst hk
      rw [findMap, if_pos rfl] at h
      obtain rfl := Option.some.inj h
      exact List.mem_cons_self _ _
    · rw [findMap, if_neg hk] at h
      exact List.mem_cons_of_mem _ (ih h)

theorem mem_setMap {o : MemObj} {m : TLMap} {l : List (MemObj × TLMap)} :
    ∀ p ∈ setMap o m l, p = (o, m) ∨ p ∈ l := by
  induction l with
  | nil => intro p hp; rcases List.mem_singleton.mp hp with rfl; exact Or.inl rfl
  | cons q t ih =>
    obtain ⟨k, m0⟩ := q
    intro p hp
    by_cases hk : k = o
    · subst hk
      rw [setMap, if_pos rfl] at hp
      rcases List.mem_cons.mp hp with rfl | hp
      · exact Or.inl rfl
      · exact Or.inr (List.mem_cons_of_mem _ hp)
    · rw [setMap, if_neg hk] at hp
      rcases List.mem_cons.mp hp with rfl | hp
      · exact Or.inr (List.mem_cons_self _ _)
      · rcases ih p hp with h | h
        · exact Or.inl h
        · exact Or.inr (List.mem_cons_of_mem _ h)

/-- Structure-update helper: a snapshot with replaced object list. -/
def storeWithObjs (S : TLStore) (l : List (MemObj × TLMap)) : TLStore :=
  { S with objs := l }

theorem storeWithObjs_objs (S : TLStore) (l : List (MemObj × TLMap)) :
    (storeWithObjs S l).objs = l := rfl

theorem storeWithObjs_flag (S : TLStore) (l : List (MemObj × TLMap)) :
    (storeWithObjs S l).allOthersClobbered = S.allOthersClobbered := rfl

/-- Reduction of `markGoodBytes` when every guard passes and the object has
no recorded store yet (TentativeLoads.cpp:165-169): the whole range is
missing and gets inserted into a fresh map. -/
theorem markGoodBytes_eq_none {S : TLStore} {ptr : PtrOperand} {v : ImpVal}
    (hflag : S.allOthersClobbered = true)
    (hu : uniqueIV ptr = some (ValSetType.PB, v))
    (hcg : v.V.isConstGlobal = false)
    (hfm : findMap v.V S.objs = none) (len off : ℕ) :
    markGoodBytes ptr len true S off =
      storeWithObjs S
        (setMap v.V (insertCoal (v.offset + off) (v.offset + off + len) []) S.objs) := by
  simp [markGoodBytes, storeWithObjs, hflag, hu, hcg, hfm]

/-- Reduction of `markGoodBytes` when every guard passes and the object
already has a recorded store: the missing sub-ranges are inserted. -/
theorem markGoodBytes_eq_some {S : TLStore} {ptr : PtrOperand} {v : ImpVal} {M : TLMap}
    (hflag : S.allOthersClobbered = true)
    (hu : uniqueIV ptr = some (ValSetType.PB, v))
    (hcg : v.V.isConstGlobal = false)
    (hfm : findMap v.V S.objs = some M) (len off : ℕ) :
    markGoodBytes ptr len true S off =
      (if (addRangesFor (v.offset + off) (v.offset + off + len) M).isEmpty then S
       else storeWithObjs S (setMap v.V ((addRangesFor (v.offset + off) (v.offset + off + len) M).foldl (fun m r => insertCoal r.1 r.2 m) M) S.objs)) := by
  simp [markGoodBytes, storeWithObjs, hflag, hu, hcg, hfm]

theorem markGoodBytes_not_enabled (S : TLStore) (ptr : PtrOperand) (len off : ℕ) :
    markGoodBytes ptr len false S off = S := rfl

theorem markGoodBytes_not_clobbered {S : TLStore}
    (hflag : S.allOthersClobbered = false) (ptr : PtrOperand) (ce : Bool) (len off : ℕ) :
    markGoodBytes ptr len ce S off = S := by
  cases ce
  · rfl
  · simp [markGoodBytes, hflag]

theorem markGoodBytes_none_unique {S : TLStore} {ptr : PtrOperand}
    (hflag : S.allOthersClobbered = true) (hu : uniqueIV ptr = none) (len off : ℕ) :
    markGoodBytes ptr len true S off = S := by
  simp [markGoodBytes, hflag, hu]

theorem markGoodBytes_not_PB {S : TLStore} {ptr : PtrOperand} {st : ValSetType} {v : ImpVal}
    (hflag : S.allOthersClobbered = true) (hu : uniqueIV ptr = some (st, v))
    (hst : st ≠ ValSetType.PB) (len off : ℕ) :
    markGoodBytes ptr len true S off = S := by
  simp [markGoodBytes, hflag, hu, hst]

theorem markGoodBytes_constGlobal {S : TLStore} {ptr : PtrOperand} {v : ImpVal}
    (hflag : S.allOthersClobbered = true) (hu : uniqueIV ptr = some (ValSetType.PB, v))
    (hcg : v.V.isConstGlobal = true) (len off : ℕ) :
    markGoodBytes ptr len true S off = S := by
  simp [markGoodBytes, hflag, hu, hcg]

/-- `markGoodBytes` preserves the snapshot invariant and the
`allOthersClobbered` flag, and only ever adds trusted bytes to an object's
recorded map. -/
theorem markGoodBytes_out {S : TLStore} (hinv : StoreInv S) {len : ℕ}
    (hlen : 0 < len) (ptr : PtrOperand) (ce : Bool) (off : ℕ) :
    StoreInv (markGoodBytes ptr len ce S off) ∧
    (markGoodBytes ptr len ce S off).allOthersClobbered = S.allOthersClobbered ∧
    (∀ o M, findMap o S.objs = some M →
      ∃ M', findMap o (markGoodBytes ptr len ce S off).objs = some M' ∧
        (∀ y, memB y M = true → memB y M' = true)) := by
  have hid : StoreInv S ∧ S.allOthersClobbered = S.allOthersClobbered ∧
      (∀ o M, findMap o S.objs = some M →
        ∃ M', findMap o S.objs = some M' ∧ (∀ y, memB y M = true → memB y M' = true)) :=
    ⟨hinv, rfl, fun o M h => ⟨M, h, fun _ hy => hy⟩⟩
  rcases Bool.eq_false_or_eq_true ce with hce | hce
  swap
  · subst hce; rw [markGoodBytes_not_enabled]; exact hid
  subst hce
  rcases Bool.eq_false_or_eq_true S.allOthersClobbered with hflag | hflag
  swap
  · rw [markGoodBytes_not_clobbered hflag]; exact hid
  rcases hu : uniqueIV ptr with _ | ⟨st, v⟩
  · rw [markGoodBytes_none_unique hflag hu]; exact hid
  by_cases hst : st = ValSetType.PB
  swap
  · rw [markGoodBytes_not_PB hflag hu hst]; exact hid
  subst hst
  rcases Bool.eq_false_or_eq_true v.V.isConstGlobal with hcg | hcg
  · rw [markGoodBytes_constGlobal hflag hu hcg]; exact hid
  rcases hfm : findMap v.V S.objs with _ | M
  · rw [markGoodBytes_eq_none hflag hu hcg hfm]
    refine ⟨?_, storeWithObjs_flag _ _, ?_⟩
    · intro p hp
      rw [storeWithObjs_objs] at hp
      rcases mem_setMap p hp with rfl | hp
      · exact TLMapInv_insertCoal ⟨List.Pairwise.nil, by simp⟩ (by omega)
      · exact hinv p hp
    · intro o M h
      by_cases ho : v.V = o
      · subst ho; rw [h] at hfm; cases hfm
      · refine ⟨M, ?_, fun _ hy => hy⟩
        rw [storeWithObjs_objs, findMap_setMap_ne _ _ _ _ (fun hh => ho hh.symm)]
        exact h
  · rw [markGoodBytes_eq_some hflag hu hcg hfm]
    have hMinv : TLMapInv M := hinv (v.V, M) (findMap_mem hfm)
    have hwf := addRangesFor_wf hMinv
      (show v.offset + off < v.offset + off + len by omega)
    rcases Bool.eq_false_or_eq_true
        (addRangesFor (v.offset + off) (v.offset + off + len) M).isEmpty
      with hemp | hemp
    · rw [if_pos hemp]
      exact hid
    · rw [if_neg (by rw [hemp]; exact Bool.false_ne_true)]
      refine ⟨?_, storeWithObjs_flag _ _, ?_⟩
      · intro p hp
        rw [storeWithObjs_objs] at hp
        rcases mem_setMap p hp with rfl | hp
        · exact TLMapInv_foldl_insertCoal hMinv hwf
        · exact hinv p hp
      · intro o M0 h
        by_cases ho : v.V = o
        · subst ho
          rw [h] at hfm
          obtain rfl := Option.some.inj hfm
          rw [storeWithObjs_objs]
          exact ⟨_, findMap_setMap_self _ _ _, fun y hy => by
            rw [memB_foldl_insertCoal, hy, Bool.true_or]⟩
        · refine ⟨M0, ?_, fun _ hy => hy⟩
          rw [storeWithObjs_objs, findMap_setMap_ne _ _ _ _ (fun hh => ho hh.symm)]
          exact h

/-- After `markGoodBytes` in a check-emitting context under full clobber,
the marked object records every byte of the marked range. -/
theorem markGoodBytes_covers {S : TLStore} (hinv : StoreInv S)
    (hflag : S.allOthersClobbered = true) {ptr : PtrOperand} {v : ImpVal}
    (hu : uniqueIV ptr = some (ValSetType.PB, v))
    (hcg : v.V.isConstGlobal = false) {len : ℕ} (hlen : 0 < len) (off : ℕ) :
    ∃ M', findMap v.V (markGoodBytes ptr len true S off).objs = some M' ∧
      (∀ y, v.offset + off ≤ y → y < v.offset + off + len → memB y M' = true) := by
  rcases hfm : findMap v.V S.objs with _ | M
  · rw [markGoodBytes_eq_none hflag hu hcg hfm]
    refine ⟨_, by rw [storeWithObjs_objs]; exact findMap_setMap_self _ _ _, ?_⟩
    intro y hy1 hy2
    rw [memB_insertCoal]
    rw [Bool.or_eq_true, Bool.and_eq_true]
    left
    constructor <;> simp only [decide_eq_true_eq] <;> omega
  · rw [markGoodBytes_eq_some hflag hu hcg hfm]
    rcases Bool.eq_false_or_eq_true
        (addRangesFor (v.offset + off) (v.offset + off + len) M).isEmpty
      with hemp | hemp
    · rw [if_pos hemp]
      refine ⟨M, hfm, ?_⟩
      intro y hy1 hy2
      rcases addRangesFor_covers hy1 hy2 with hmem | ⟨r, hr, _, _⟩
      · exact hmem
      · rw [List.isEmpty_iff] at hemp
        rw [hemp] at hr
        cases hr
    · rw [if_neg (by rw [hemp]; exact Bool.false_ne_true)]
      refine ⟨_, by rw [storeWithObjs_objs]; exact findMap_setMap_self _ _ _, ?_⟩
      intro y hy1 hy2
      rw [memB_foldl_insertCoal]
      rcases addRangesFor_covers hy1 hy2 with hmem | ⟨r, hr, hr1, hr2⟩
      · rw [hmem, Bool.true_or]
      · rw [Bool.or_eq_true]
        right
        rw [List.any_eq_true]
        refine ⟨r, hr, ?_⟩
        rw [Bool.and_eq_true]
        constructor <;> simp only [decide_eq_true_eq] <;> omega

theorem tlsMin_nevercheck (a : ThreadLocalState) : tlsMin a TLS_NEVERCHECK = a := by
  cases a <;> rfl

/-- In the second pass, an instruction already classified `TLS_MUSTCHECK`
is returned unchanged (TentativeLoads.cpp:982-983) — and no other branch of
`TLAnalyseInstruction` ever lowers an existing classification. -/
theorem TLAnalyse_sticky (g : Globals) (cd : Bool) (SI : SInstr) (S : TLStore) :
    (TLAnalyseInstruction g cd true SI TLS_MUSTCHECK S).1 = TLS_MUSTCHECK := by
  rcases h : SI.readsMemoryDirectly with _ | _ <;>
    rcases h2 : SI.isCallOrInvoke with _ | _ <;>
      simp [TLAnalyseInstruction, h, h2]

/-- Default entry used for out-of-range list indexing. -/
def defaultInstrState : SInstr × ThreadLocalState := (SInstr.otherInstr, TLS_NEVERCHECK)

theorem walkBlock_sticky (g : Globals) (cd : Bool)
    (body : List (SInstr × ThreadLocalState)) (S : TLStore) (i : ℕ)
    (h : (body.getD i defaultInstrState).2 = TLS_MUSTCHECK) :
    (((walkBlock g cd true body S).1).getD i defaultInstrState).2 = TLS_MUSTCHECK := by
  induction body generalizing S i with
  | nil =>
    exfalso
    simp only [List.getD_nil] at h
    exact absurd h (by decide)
  | cons p t ih =>
    obtain ⟨si, tls⟩ := p
    simp only [walkBlock]
    cases i with
    | zero =>
      simp only [List.getD_cons_zero] at h
      subst h
      simp only [List.getD_cons_zero]
      exact TLAnalyse_sticky g cd si S
    | succ n =>
      simp only [List.getD_cons_succ] at h
      simp only [List.getD_cons_succ]
      exact ih _ n h

/-- Which base objects a pointer operand may denote. -/
def ptrObjs : PtrOperand → List MemObj
  | .ivs _ _ vs => vs.map ImpVal.V
  | .single _ v => [v.V]

theorem clearDomain_foldl_preserves {dom : List MemObj} {S : TLStore} {X : MemObj}
    (hX : X ∉ dom) :
    findMap X (dom.foldl clearDomainObject S).objs = findMap X S.objs ∧
    (dom.foldl clearDomainObject S).allOthersClobbered = S.allOthersClobbered := by
  induction dom generalizing S with
  | nil => exact ⟨rfl, rfl⟩
  | cons o t ih =>
    have hXo : X ≠ o := fun h => hX (h ▸ List.mem_cons_self _ _)
    have hXt : X ∉ t := fun h => hX (List.mem_cons_of_mem _ h)
    rw [List.foldl_cons]
    obtain ⟨h1, h2⟩ := ih (S := clearDomainObject S o) hXt
    refine ⟨?_, ?_⟩
    · rw [h1]
      show findMap X (setMap o [] S.objs) = findMap X S.objs
      exact findMap_setMap_ne _ _ _ _ hXo
    · exact h2

theorem shouldCheckRead_congr {S S' : TLStore} (Ptr : ImpVal) (size : ℕ)
    (hm : findMap Ptr.V S'.objs = findMap Ptr.V S.objs)
    (hf : S'.allOthersClobbered = S.allOthersClobbered) :
    shouldCheckRead Ptr size S' = shouldCheckRead Ptr size S := by
  unfold shouldCheckRead
  rw [hm, hf]

theorem shouldCheckLoadFrom_congr {S S' : TLStore} (v : ImpVal)
    (res : Option ResultPB) (loadSize : ℕ)
    (hm : findMap v.V S'.objs = findMap v.V S.objs)
    (hf : S'.allOthersClobbered = S.allOthersClobbered) :
    shouldCheckLoadFrom res v loadSize S' = shouldCheckLoadFrom res v loadSize S := by
  unfold shouldCheckLoadFrom
  have hrd : ∀ (off size : ℕ),
      shouldCheckRead ⟨v.V, off⟩ size S' = shouldCheckRead ⟨v.V, off⟩ size S :=
    fun off size => shouldCheckRead_congr ⟨v.V, off⟩ size hm hf
  have hrv : shouldCheckRead v loadSize S' = shouldCheckRead v loadSize S :=
    hrd v.offset loadSize
  rcases res with _ | res
  · rw [hrv]
  · rcases res with wu | ranges
    · rw [hrv]
    · dsimp only
      rw [show (ranges.any fun r =>
            !r.2 && shouldCheckRead ⟨v.V, v.offset + r.1.1⟩ (r.1.2 - r.1.1) S') =
          (ranges.any fun r =>
            !r.2 && shouldCheckRead ⟨v.V, v.offset + r.1.1⟩ (r.1.2 - r.1.1) S) from
        congrArg _ (funext fun r => by rw [hrd])]

theorem checkLoadFroms_congr {S S' : TLStore} (res : Option ResultPB) (loadSize : ℕ)
    (hf : S'.allOthersClobbered = S.allOthersClobbered) :
    ∀ (vals : List ImpVal) (r0 : ThreadLocalState),
      (∀ w ∈ vals, findMap w.V S'.objs = findMap w.V S.objs) →
      checkLoadFroms res loadSize S' vals r0 = checkLoadFroms res loadSize S vals r0 := by
  intro vals
  induction vals with
  | nil => intro r0 _; rfl
  | cons w t ih =>
    intro r0 hm
    unfold checkLoadFroms
    by_cases hr : r0 = TLS_MUSTCHECK
    · rw [if_pos hr, if_pos hr]
    · rw [if_neg hr, if_neg hr,
        shouldCheckLoadFrom_congr w res loadSize (hm w (List.mem_cons_self _ _)) hf]
      exact ih _ (fun u hu => hm u (List.mem_cons_of_mem _ hu))

/-- The dispatch of `shouldCheckLoad` specialized to a load instruction. -/
theorem shouldCheckLoad_load_unfold (g : Globals) (S : TLStore) (ptr : PtrOperand)
    (size : ℕ) (vol ordered simple : Bool) (res : Option ResultPB) :
    shouldCheckLoad g S (SInstr.load ptr size vol ordered simple res) =
      (if g.programSingleThreaded then TLS_NEVERCHECK
       else if isWhollyUnknownSingle res then TLS_NEVERCHECK
       else if ordered then TLS_MUSTCHECK
       else
         match ptr with
         | PtrOperand.ivs wu st vals =>
           if wu || st ≠ ValSetType.PB then TLS_NEVERCHECK
           else checkLoadFroms res size S vals TLS_NEVERCHECK
         | PtrOperand.single st v =>
           if st ≠ ValSetType.PB then TLS_NEVERCHECK
           else shouldCheckLoadFrom res v size S) := by
  simp [shouldCheckLoad, SInstr.readsMemoryDirectly, SInstr.isCopyInst, SInstr.resPB]

/-- Snapshot congruence for the classification of a plain load: if two
snapshots agree (map entry and clobber flag) on every object the load's
pointer may denote, the load is classified identically. -/
theorem shouldCheckLoad_load_congr {S S' : TLStore} (g : Globals)
    (ptr : PtrOperand) (size : ℕ) (vol ordered simple : Bool) (res : Option ResultPB)
    (hm : ∀ o ∈ ptrObjs ptr, findMap o S'.objs = findMap o S.objs)
    (hf : S'.allOthersClobbered = S.allOthersClobbered) :
    shouldCheckLoad g S' (SInstr.load ptr size vol ordered simple res) =
      shouldCheckLoad g S (SInstr.load ptr size vol ordered simple res) := by
  rw [shouldCheckLoad_load_unfold, shouldCheckLoad_load_unfold]
  by_cases h1 : g.programSingleThreaded = true
  · rw [if_pos h1, if_pos h1]
  · rw [if_neg h1, if_neg h1]
    by_cases h2 : isWhollyUnknownSingle res = true
    · rw [if_pos h2, if_pos h2]
    · rw [if_neg h2, if_neg h2]
      by_cases h3 : ordered = true
      · rw [if_pos h3, if_pos h3]
      · rw [if_neg h3, if_neg h3]
        rcases ptr with ⟨wu, st, vals⟩ | ⟨st, v⟩
        · dsimp only
          by_cases h4 : (wu || decide (st ≠ ValSetType.PB)) = true
          · rw [if_pos h4, if_pos h4]
          · rw [if_neg h4, if_neg h4]
            exact checkLoadFroms_congr res size hf vals TLS_NEVERCHECK
              (fun w hw => hm w.V (by
                show w.V ∈ vals.map ImpVal.V
                exact List.mem_map_of_mem _ hw))
        · dsimp only
          by_cases h5 : st ≠ ValSetType.PB
          · rw [if_pos h5, if_pos h5]
          · rw [if_neg h5, if_neg h5]
            exact shouldCheckLoadFrom_congr v res size
              (hm v.V (List.mem_singleton_self _)) hf

theorem isNullOrConst_false_elim {o : MemObj} (h : o.isNullOrConst = false) :
    o ≠ MemObj.nullPtr ∧ o.isConstGlobal = false := by
  cases o with
  | nullPtr => cases h
  | gv i c =>
    refine ⟨(by intro hh; cases hh), ?_⟩
    simpa [MemObj.isNullOrConst, MemObj.isConstGlobal] using h
  | heap i => exact ⟨(by intro hh; cases hh), rfl⟩
  | stack f i => exact ⟨(by intro hh; cases hh), rfl⟩

theorem shouldCheckLoadFrom_mustcheck_not_const {res : Option ResultPB} {v : ImpVal}
    {loadSize : ℕ} {S : TLStore}
    (h : shouldCheckLoadFrom res v loadSize S = TLS_MUSTCHECK) :
    v.V.isNullOrConst = false := by
  rcases hn : v.V.isNullOrConst with _ | _
  · rfl
  · exfalso
    unfold shouldCheckLoadFrom at h
    rw [hn] at h
    rw [if_pos rfl] at h
    exact absurd h (by decide)

/-- Peeling the `shouldCheckLoad` dispatch for a plain (unordered) load
whose pointer has a unique pointer-typed target. -/
theorem shouldCheckLoad_load_mustcheck {g : Globals} {S : TLStore} {ptr : PtrOperand}
    {size : ℕ} {vol simple : Bool} {res : Option ResultPB} {v : ImpVal}
    (hu : uniqueIV ptr = some (ValSetType.PB, v))
    (h : shouldCheckLoad g S (SInstr.load ptr size vol false simple res) = TLS_MUSTCHECK) :
    g.programSingleThreaded = false ∧ shouldCheckLoadFrom res v size S = TLS_MUSTCHECK := by
  rw [shouldCheckLoad_load_unfold] at h
  rcases hst : g.programSingleThreaded with _ | _
  swap
  · exfalso
    rw [hst, if_pos rfl] at h
    exact absurd h (by decide)
  rw [hst] at h
  rw [if_neg (by decide)] at h
  refine ⟨rfl, ?_⟩
  by_cases h2 : isWhollyUnknownSingle res = true
  · rw [if_pos h2] at h
    exact absurd h (by decide)
  · rw [if_neg h2] at h
    rw [if_neg (by decide)] at h
    rcases ptr with ⟨wu, st, vals⟩ | ⟨st, w⟩
    · rcases wu with _ | _
      · unfold uniqueIV at hu
        dsimp only at hu
        rw [if_neg (by decide)] at hu
        rcases vals with _ | ⟨w, vals2⟩
        · cases hu
        · rcases vals2 with _ | _
          · dsimp only at hu
            obtain ⟨hst2, hwv⟩ := Prod.mk.inj (Option.some.inj hu)
            subst hst2
            subst hwv
            dsimp only at h
            rw [if_neg (by decide)] at h
            unfold checkLoadFroms at h
            rw [if_neg (by decide)] at h
            unfold checkLoadFroms at h
            rw [tlsMin_nevercheck] at h
            exact h
          · dsimp only at hu
            cases hu
      · unfold uniqueIV at hu
        dsimp only at hu
        rw [if_pos rfl] at hu
        cases hu
    · unfold uniqueIV at hu
      dsimp only at hu
      obtain ⟨hst2, hwv⟩ := Prod.mk.inj (Option.some.inj hu)
      subst hst2
      subst hwv
      dsimp only at h
      rw [if_neg (fun hh => hh rfl)] at h
      exact h

/-- The coverage test succeeds on a snapshot object whose map records every
byte of the read range, so `shouldCheckRead` declines the check. -/
theorem shouldCheckRead_false_of_covered {S : TLStore} {o : MemObj} {off size : ℕ}
    {M : TLMap} (hM : findMap o S.objs = some M) (hMinv : TLMapInv M)
    (hsz : 0 < size)
    (hmem : ∀ y, off ≤ y → y < off + size → memB y M = true) :
    shouldCheckRead ⟨o, off⟩ size S = false := by
  unfold shouldCheckRead
  dsimp only
  by_cases h1 : o = MemObj.nullPtr
  · rw [if_pos h1]
  · rw [if_neg h1]
    by_cases h2 : o.isConstGlobal = true
    · rw [if_pos h2]
    · rw [if_neg h2, hM]
      dsimp only
      rw [(covered_iff hMinv hsz).mpr hmem]
      rfl

theorem shouldCheckRead_true_elim {S : TLStore} {o : MemObj} {off size : ℕ}
    (h : shouldCheckRead ⟨o, off⟩ size S = true) :
    o ≠ MemObj.nullPtr ∧ o.isConstGlobal = false := by
  unfold shouldCheckRead at h
  dsimp only at h
  by_cases h1 : o = MemObj.nullPtr
  · rw [if_pos h1] at h
    cases h
  · rw [if_neg h1] at h
    by_cases h2 : o.isConstGlobal = true
    · rw [if_pos h2] at h
      cases h
    · exact ⟨h1, by rcases Bool.eq_false_or_eq_true o.isConstGlobal with hh | hh
                    · exact absurd hh h2
                    · exact hh⟩

/-- Peeling `shouldCheckCopy` when it requests a check. -/
theorem shouldCheckCopy_mustcheck {S : TLStore} {src : PtrOperand} {len : ℕ}
    {vals : List ((ℕ × ℕ) × Bool)}
    (h : shouldCheckCopy S src (some len) (some vals) = TLS_MUSTCHECK) :
    ∃ v, uniqueIV src = some (ValSetType.PB, v) ∧ 0 < len ∧
      v.V ≠ MemObj.nullPtr ∧ v.V.isConstGlobal = false ∧ vals.isEmpty = false := by
  unfold shouldCheckCopy at h
  dsimp only at h
  rcases hu : uniqueIV src with _ | ⟨st, v⟩
  · rw [hu] at h
    cases h
  · rw [hu] at h
    dsimp only at h
    by_cases hst : st ≠ ValSetType.PB
    · rw [if_pos hst] at h
      cases h
    · rw [if_neg hst] at h
      push_neg at hst
      subst hst
      by_cases hl : len = 0
      · rw [if_pos hl] at h
        cases h
      · rw [if_neg hl] at h
        rcases Bool.eq_false_or_eq_true vals.isEmpty with hemp | hemp
        · rw [if_pos hemp] at h
          cases h
        · rw [if_neg (by rw [hemp]; exact Bool.false_ne_true)] at h
          rcases Bool.eq_false_or_eq_true (vals.any (fun r =>
              !r.2 && shouldCheckRead ⟨v.V, v.offset + r.1.1⟩ (r.1.2 - r.1.1) S))
            with hany | hany
          · rw [List.any_eq_true] at hany
            obtain ⟨r, hr, hrr⟩ := hany
            rw [Bool.and_eq_true] at hrr
            obtain ⟨hnc⟩ := shouldCheckRead_true_elim hrr.2
            obtain ⟨h1, h2⟩ := shouldCheckRead_true_elim hrr.2
            exact ⟨v, rfl, Nat.pos_of_ne_zero hl, h1, h2, hemp⟩
          · rw [if_neg (by rw [hany]; exact Bool.false_ne_true)] at h
            cases h

/-- `shouldCheckCopy` declines the check once every concrete copied value's
range is covered. -/
theorem shouldCheckCopy_nocheck {S' : TLStore} {src : PtrOperand} {v : ImpVal}
    {len : ℕ} {vals : List ((ℕ × ℕ) × Bool)}
    (hu : uniqueIV src = some (ValSetType.PB, v)) (hlen : len ≠ 0)
    (hvals : vals.isEmpty = false)
    (hrd : ∀ r ∈ vals, r.2 = false →
      shouldCheckRead ⟨v.V, v.offset + r.1.1⟩ (r.1.2 - r.1.1) S' = false) :
    shouldCheckCopy S' src (some len) (some vals) = TLS_NOCHECK := by
  unfold shouldCheckCopy
  dsimp only
  rw [hu]
  dsimp only
  rw [if_neg (fun hh => hh rfl), if_neg hlen,
    if_neg (by rw [hvals]; exact Bool.false_ne_true)]
  rw [if_neg ?_]
  rw [Bool.not_eq_true, List.any_eq_false]
  intro r hr
  rcases Bool.eq_false_or_eq_true r.2 with h2 | h2
  · rw [h2]
    simp
  · rw [h2, hrd r hr h2]
    simp

theorem updateTLStore_load_plain (ptr : PtrOperand) (size : ℕ) (simple : Bool)
    (res : Option ResultPB) (tls : ThreadLocalState) (ce : Bool) (S : TLStore) :
    updateTLStore (SInstr.load ptr size false false simple res) tls ce S =
      markGoodBytes ptr size ce S := by
  simp [updateTLStore]

theorem updateTLStore_memTransfer (dst src : PtrOperand) (len : Option ℕ)
    (cv : Option (List ((ℕ × ℕ) × Bool))) (tls : ThreadLocalState) (ce : Bool)
    (S : TLStore) :
    updateTLStore (SInstr.memTransfer dst src len cv) tls ce S =
      walkCopyInst dst src len ce S := rfl

theorem shouldCheckLoad_memTransfer_unfold (g : Globals) (S : TLStore)
    (dst src : PtrOperand) (len : Option ℕ) (cv : Option (List ((ℕ × ℕ) × Bool))) :
    shouldCheckLoad g S (SInstr.memTransfer dst src len cv) =
      if g.programSingleThreaded then TLS_NEVERCHECK
      else shouldCheckCopy S src len cv := by
  simp [shouldCheckLoad, SInstr.readsMemoryDirectly, SInstr.isCopyInst, SInstr.resPB]

theorem shouldCheckCopy_len_zero (S : TLStore) (src : PtrOperand)
    (cv : Option (List ((ℕ × ℕ) × Bool))) :
    shouldCheckCopy S src (some 0) cv = TLS_NEVERCHECK := by
  unfold shouldCheckCopy
  dsimp only
  rcases uniqueIV src with _ | ⟨st, v⟩
  · rfl
  · dsimp only
    by_cases hst : st ≠ ValSetType.PB
    · rw [if_pos hst]
    · rw [if_neg hst, if_pos rfl]

theorem shouldCheckCopy_vals_none (S : TLStore) (src : PtrOperand) (len : ℕ) :
    shouldCheckCopy S src (some len) none = TLS_NEVERCHECK := by
  unfold shouldCheckCopy
  dsimp only
  rcases uniqueIV src with _ | ⟨st, v⟩
  · rfl
  · dsimp only
    by_cases hst : st ≠ ValSetType.PB
    · rw [if_pos hst]
    · rw [if_neg hst]
      by_cases hl : len = 0
      · rw [if_pos hl]
      · rw [if_neg hl]

theorem shouldCheckCopy_vals_empty (S : TLStore) (src : PtrOperand) (len : ℕ) :
    shouldCheckCopy S src (some len) (some []) = TLS_NEVERCHECK := by
  unfold shouldCheckCopy
  dsimp only
  rcases uniqueIV src with _ | ⟨st, v⟩
  · rfl
  · dsimp only
    by_cases hst : st ≠ ValSetType.PB
    · rw [if_pos hst]
    · rw [if_neg hst]
      by_cases hl : len = 0
      · rw [if_pos hl]
      · rw [if_neg hl]
        rfl

theorem perm_all_eq {α : Type} {l₁ l₂ : List α} (h : l₁.Perm l₂) (f : α → Bool) :
    l₁.all f = l₂.all f := by
  rw [Bool.eq_iff_iff, List.all_eq_true, List.all_eq_true]
  constructor <;> intro hh a ha
  · exact hh a (h.symm.subset ha)
  · exact hh a (h.subset ha)

theorem perm_any_eq {α : Type} {l₁ l₂ : List α} (h : l₁.Perm l₂) (f : α → Bool) :
    l₁.any f = l₂.any f := by
  rw [Bool.eq_iff_iff, List.any_eq_true, List.any_eq_true]
  constructor <;> intro hh
  · obtain ⟨a, ha, hfa⟩ := hh
    exact ⟨a, h.subset ha, hfa⟩
  · obtain ⟨a, ha, hfa⟩ := hh
    exact ⟨a, h.symm.subset ha, hfa⟩

/-- C1: Merge soundness — for every merge of incoming snapshots (control-flow
join, call return, loop back-edge), per object and byte, the byte is trusted
in the merged snapshot exactly when it is trusted on every input snapshot
(per object the resulting trusted byte set is the intersection of the
inputs'), and the merged `allOthersClobbered` flag is the logical OR across
the inputs. -/
theorem C1_merge_soundness (first : TLStore) (rest : List TLStore) :
    (∀ (o : MemObj) (x : ℕ),
      trusted (mergeMany first rest) o x =
        (trusted first o x && rest.all (fun S => trusted S o x))) ∧
    (mergeMany first rest).allOthersClobbered =
      (first.allOthersClobbered || rest.any (fun S => S.allOthersClobbered)) :=
  ⟨fun o x => trusted_mergeMany first rest o x, mergeMany_flag first rest⟩

/-- C2: The snapshot merge is commutative, associative and idempotent on the
trust lattice (per-object trusted byte sets and the `allOthersClobbered`
flag agree), and merging any permutation of a list of incoming snapshots
yields the same result. -/
theorem C2_merge_comm_assoc_idem :
    (∀ (A B : TLStore) (o : MemObj) (x : ℕ),
      trusted (mergeSnapshots A B) o x = trusted (mergeSnapshots B A) o x ∧
      (mergeSnapshots A B).allOthersClobbered = (mergeSnapshots B A).allOthersClobbered) ∧
    (∀ (A B C : TLStore) (o : MemObj) (x : ℕ),
      trusted (mergeSnapshots (mergeSnapshots A B) C) o x =
        trusted (mergeSnapshots A (mergeSnapshots B C)) o x ∧
      (mergeSnapshots (mergeSnapshots A B) C).allOthersClobbered =
        (mergeSnapshots A (mergeSnapshots B C)).allOthersClobbered) ∧
    (∀ (A : TLStore) (o : MemObj) (x : ℕ),
      trusted (mergeSnapshots A A) o x = trusted A o x ∧
      (mergeSnapshots A A).allOthersClobbered = A.allOthersClobbered) ∧
    (∀ (first : TLStore) (l₁ l₂ : List TLStore), l₁.Perm l₂ →
      ∀ (o : MemObj) (x : ℕ),
        trusted (mergeMany first l₁) o x = trusted (mergeMany first l₂) o x ∧
        (mergeMany first l₁).allOthersClobbered =
          (mergeMany first l₂).allOthersClobbered) := by
  refine ⟨?_, ?_, ?_, ?_⟩
  · intro A B o x
    refine ⟨?_, ?_⟩
    · rw [trusted_mergeSnapshots, trusted_mergeSnapshots, Bool.and_comm]
    · rw [mergeSnapshots_flag, mergeSnapshots_flag, Bool.or_comm]
  · intro A B C o x
    refine ⟨?_, ?_⟩
    · rw [trusted_mergeSnapshots, trusted_mergeSnapshots, trusted_mergeSnapshots,
        trusted_mergeSnapshots, Bool.and_assoc]
    · rw [mergeSnapshots_flag, mergeSnapshots_flag, mergeSnapshots_flag,
        mergeSnapshots_flag, Bool.or_assoc]
  · intro A o x
    refine ⟨?_, ?_⟩
    · rw [trusted_mergeSnapshots, Bool.and_self]
    · rw [mergeSnapshots_flag, Bool.or_self]
  · intro first l₁ l₂ hperm o x
    refine ⟨?_, ?_⟩
    · rw [trusted_mergeMany, trusted_mergeMany, perm_all_eq hperm]
    · rw [mergeMany_flag, mergeMany_flag, perm_any_eq hperm]

/-- Sample snapshots used by concrete witness instances. -/
def sampleStoreA : TLStore :=
  { objs := [(MemObj.gv 0 false, [(0, 4)])], allOthersClobbered := true }

def sampleStoreB : TLStore :=
  { objs := [(MemObj.gv 0 false, [(2, 8)])], allOthersClobbered := false }

def sampleStoreC : TLStore := { objs := [], allOthersClobbered := true }

theorem C2_merge_comm_assoc_idem_witness :
    trusted (mergeMany sampleStoreC [sampleStoreA, sampleStoreB]) (MemObj.gv 0 false) 1 =
      trusted (mergeMany sampleStoreC [sampleStoreB, sampleStoreA]) (MemObj.gv 0 false) 1 :=
  ((C2_merge_comm_assoc_idem.2.2.2 sampleStoreC [sampleStoreA, sampleStoreB]
      [sampleStoreB, sampleStoreA]
      (List.Perm.swap sampleStoreB sampleStoreA [])) (MemObj.gv 0 false) 1).1

/-- Sample atomic read-modify-write instruction with a useful (not wholly
unknown) speculated result. -/
def atomicSample : SInstr :=
  SInstr.atomicRMW (PtrOperand.single ValSetType.PB ⟨MemObj.gv 0 false, 0⟩) 4 false
    (some (ResultPB.single false))

/-- C3 counterexample: with `programSingleThreaded` set, an atomic
read-modify-write is classified `TLS_NEVERCHECK`, not `TLS_MUSTCHECK` — the
claim's "regardless of ... analysis mode" fails (shouldCheckLoad's
single-threaded early-out precedes the atomic branch,
TentativeLoads.cpp:560-561). -/
theorem C3_counterexample :
    shouldCheckLoad ⟨true⟩ ⟨[], false⟩ atomicSample = TLS_NEVERCHECK ∧
    TLS_NEVERCHECK ≠ TLS_MUSTCHECK := by
  constructor
  · rfl
  · decide

/-- C3 (amended): outside single-threaded mode, for an atomic
read-modify-write or compare-and-swap whose speculated result is not wholly
unknown, the classifier returns `TLS_MUSTCHECK` regardless of the snapshot
state. -/
theorem C3_atomic_mustcheck (g : Globals) (S : TLStore) (SI : SInstr)
    (hkind : (∃ ptr n simple res, SI = SInstr.atomicRMW ptr n simple res) ∨
             (∃ ptr n simple res, SI = SInstr.atomicCmpXchg ptr n simple res))
    (hst : g.programSingleThreaded = false)
    (hres : isWhollyUnknownSingle SI.resPB = false) :
    shouldCheckLoad g S SI = TLS_MUSTCHECK := by
  rcases hkind with ⟨ptr, n, simple, res, rfl⟩ | ⟨ptr, n, simple, res, rfl⟩ <;>
  · dsimp only [SInstr.resPB] at hres
    unfold shouldCheckLoad
    rw [hst]
    rw [if_neg (by decide)]
    rw [if_neg (by
      dsimp only [SInstr.readsMemoryDirectly, SInstr.isCopyInst, SInstr.resPB]
      rw [hres]
      decide)]

theorem C3_atomic_mustcheck_witness :
    shouldCheckLoad ⟨false⟩ ⟨[], false⟩ atomicSample = TLS_MUSTCHECK :=
  C3_atomic_mustcheck ⟨false⟩ ⟨[], false⟩ atomicSample
    (Or.inl ⟨_, _, _, _, rfl⟩) rfl rfl

/-- C10: a memory read whose speculated result is unusable is classified
`TLS_NEVERCHECK`: a plain load whose value-propagation result is wholly
unknown (TentativeLoads.cpp:563-568), and a memory copy whose length is not
a known constant, or is zero, or with no recorded `memcpyValues`
(TentativeLoads.cpp:494-508). -/
theorem C10_unusable_result_nevercheck :
    (∀ (g : Globals) (S : TLStore) (ptr : PtrOperand) (size : ℕ)
        (vol ordered simple : Bool),
      shouldCheckLoad g S
        (SInstr.load ptr size vol ordered simple (some (ResultPB.single true))) =
        TLS_NEVERCHECK) ∧
    (∀ (g : Globals) (S : TLStore) (dst src : PtrOperand)
        (cv : Option (List ((ℕ × ℕ) × Bool))),
      shouldCheckLoad g S (SInstr.memTransfer dst src none cv) = TLS_NEVERCHECK) ∧
    (∀ (g : Globals) (S : TLStore) (dst src : PtrOperand)
        (cv : Option (List ((ℕ × ℕ) × Bool))),
      shouldCheckLoad g S (SInstr.memTransfer dst src (some 0) cv) = TLS_NEVERCHECK) ∧
    (∀ (g : Globals) (S : TLStore) (dst src : PtrOperand) (len : ℕ),
      shouldCheckLoad g S (SInstr.memTransfer dst src (some len) none) = TLS_NEVERCHECK) ∧
    (∀ (g : Globals) (S : TLStore) (dst src : PtrOperand) (len : ℕ),
      shouldCheckLoad g S (SInstr.memTransfer dst src (some len) (some [])) =
        TLS_NEVERCHECK) := by
  refine ⟨?_, ?_, ?_, ?_, ?_⟩
  · intro g S ptr size vol ordered simple
    rw [shouldCheckLoad_load_unfold]
    by_cases h : g.programSingleThreaded = true
    · rw [if_pos h]
    · rw [if_neg h, if_pos (show isWhollyUnknownSingle (some (ResultPB.single true)) = true
        from rfl)]
  · intro g S dst src cv
    rw [shouldCheckLoad_memTransfer_unfold]
    by_cases h : g.programSingleThreaded = true
    · rw [if_pos h]
    · rw [if_neg h]
      rfl
  · intro g S dst src cv
    rw [shouldCheckLoad_memTransfer_unfold]
    by_cases h : g.programSingleThreaded = true
    · rw [if_pos h]
    · rw [if_neg h]
      exact shouldCheckCopy_len_zero S src cv
  · intro g S dst src len
    rw [shouldCheckLoad_memTransfer_unfold]
    by_cases h : g.programSingleThreaded = true
    · rw [if_pos h]
    · rw [if_neg h]
      exact shouldCheckCopy_vals_none S src len
  · intro g S dst src len
    rw [shouldCheckLoad_memTransfer_unfold]
    by_cases h : g.programSingleThreaded = true
    · rw [if_pos h]
    · rw [if_neg h]
      exact shouldCheckCopy_vals_empty S src len

/-- The alias-layer inputs of the candidate-write bug instance: a visited
store partially aliasing the candidate, whose provably overlapped range of
the candidate is exactly byte 1 (`FirstDef = 1`, `FirstNotDef = 2`). -/
def c7WriteArgs : WriteArgs :=
  { aliasR := SVAAResult.SVPartialAlias, baseOK := true,
    definedRange := some (1, 2), writeSize := 1 }

/-- C7 (bug): a visited write provably overlapping exactly byte 1 of a
two-byte candidate leaves the candidate's bitmap unchanged —
bit 1 is never set — because the marking loop
`for(i = 0; i < Size && Finished; ++i)` (DSE.cpp:348-355) clears `Finished`
at the unset non-overlapped byte 0 and thereby exits before reaching byte 1.
The claimed "every bit corresponding to an overlapped byte of W is set"
fails. -/
theorem C7_overlapped_bit_left_unset :
    c7WriteArgs.definedRange = some (1, 2) ∧
    (DSEHandleWrite c7WriteArgs (some [false, false])).1 = some [false, false] ∧
    (DSEHandleWrite c7WriteArgs (some [false, false])).2 = false := by
  decide

/-- With a null bitmap context (`DSEContext == 0`), `DSEHandleWrite` is a
no-op that never reports coverage (DSE.cpp:311-312). -/
theorem DSEHandleWrite_none (w : WriteArgs) : DSEHandleWrite w none = (none, false) :=
  rfl

/-- With a null bitmap context the walk's per-instruction step keeps the
context null. -/
theorem noteBytes_none_ctx (q : DSEQuery) (I : DSEInstr) :
    (noteBytesWrittenBy q I none).2 = none := by
  unfold noteBytesWrittenBy
  by_cases h : isLifetimeEnd q.allocKind I = true
  · rw [if_pos h]
  · rw [if_neg h]
    cases I with
    | term n here => rfl
    | mti unused srcAlias len dst =>
      dsimp only
      split
      · rfl
      · cases len with
        | none => rfl
        | some n => rfl
    | memset len dst =>
      dsimp only
      cases len with
      | none => rfl
      | some n => rfl
    | callInst frees readFile mayRef =>
      dsimp only
      cases readFile with
      | none => rfl
      | some p => rfl
    | loadInstr aliasR known =>
      dsimp only
      cases known with
      | false =>
        cases aliasR <;> rfl
      | true => rfl
    | storeInstr w => rfl
    | otherDSEInstr => rfl

/-- With a null bitmap context a path step stops successfully exactly at a
lifetime end: byte coverage can never trigger `WIRStopThisPath`. -/
theorem noteBytes_none_stop_iff (q : DSEQuery) (I : DSEInstr) :
    ((noteBytesWrittenBy q I none).1 = WalkInstructionResult.WIRStopThisPath ↔
      isLifetimeEnd q.allocKind I = true) := by
  by_cases h : isLifetimeEnd q.allocKind I = true
  · rw [iff_true_intro h, iff_true]
    unfold noteBytesWrittenBy
    rw [if_pos h]
  · rw [iff_false_intro h, iff_false]
    intro hc
    unfold noteBytesWrittenBy at hc
    rw [if_neg h] at hc
    cases I with
    | term n here =>
      dsimp only at hc
      exact absurd hc (by decide)
    | mti unused srcAlias len dst =>
      dsimp only at hc
      split at hc
      · exact absurd hc (by decide)
      · cases len with
        | none =>
          dsimp only at hc
          exact absurd hc (by decide)
        | some n =>
          dsimp only at hc
          rw [DSEHandleWrite_none] at hc
          simp at hc
    | memset len dst =>
      dsimp only at hc
      cases len with
      | none =>
        dsimp only at hc
        exact absurd hc (by decide)
      | some n =>
        dsimp only at hc
        rw [DSEHandleWrite_none] at hc
        simp at hc
    | callInst frees readFile mayRef =>
      dsimp only at hc
      cases readFile with
      | none =>
        dsimp only at hc
        exact absurd hc (by decide)
      | some p =>
        obtain ⟨sz2, w2⟩ := p
        dsimp only at hc
        rw [DSEHandleWrite_none] at hc
        simp at hc
    | loadInstr aliasR known =>
      dsimp only at hc
      revert hc
      cases known <;> cases aliasR <;> decide
    | storeInstr w =>
      dsimp only at hc
      rw [DSEHandleWrite_none] at hc
      simp at hc
    | otherDSEInstr =>
      dsimp only at hc
      exact absurd hc (by decide)

/-- C9: for a candidate write of unknown size no bitmap is allocated
(`tryKillWriterTo` keeps a null walk context, DSE.cpp:277-283), and under
a null context (i) every `DSEHandleWrite` is a no-op never reporting
coverage, (ii) a path step stops successfully exactly at a lifetime end of
the written object — never through byte coverage — and the context stays
null, and (iii) the kill decision degenerates to: the base resolves and no
forward path aborts, with the walk run on the null context. -/
theorem C9_unknown_size_lifetime_only (q : DSEQuery) (hq : q.size = none) :
    (∀ (w : WriteArgs), DSEHandleWrite w none = (none, false)) ∧
    (∀ (I : DSEInstr),
      ((noteBytesWrittenBy q I none).1 = WalkInstructionResult.WIRStopThisPath ↔
        isLifetimeEnd q.allocKind I = true) ∧
      (noteBytesWrittenBy q I none).2 = none) ∧
    (∀ (paths : List (List DSEInstr)),
      tryKillWriterTo q paths =
        (q.baseOK && !walkPathsWriteUsed q paths none,
         q.baseOK && !walkPathsWriteUsed q paths none)) := by
  obtain ⟨sz, bOK, ak⟩ := q
  cases hq
  refine ⟨fun w => rfl, fun I => ⟨noteBytes_none_stop_iff _ I, noteBytes_none_ctx _ I⟩, ?_⟩
  intro paths
  cases bOK with
  | false => rfl
  | true => rfl

theorem C9_unknown_size_lifetime_only_witness :
    tryKillWriterTo ⟨none, true, AllocKind.stackAlloc⟩ [[DSEInstr.term 0 true]] =
      (true && !walkPathsWriteUsed ⟨none, true, AllocKind.stackAlloc⟩
          [[DSEInstr.term 0 true]] none,
       true && !walkPathsWriteUsed ⟨none, true, AllocKind.stackAlloc⟩
          [[DSEInstr.term 0 true]] none) :=
  (C9_unknown_size_lifetime_only ⟨none, true, AllocKind.stackAlloc⟩ rfl).2.2
    [[DSEInstr.term 0 true]]

/-- A call that frees nothing is never a lifetime end. -/
theorem isLifetimeEnd_callInst_false (ak : AllocKind)
    (rf : Option (ℕ × WriteArgs)) (mr : Bool) :
    isLifetimeEnd ak (DSEInstr.callInst false rf mr) = false := by
  cases ak <;> rfl

/-- C8: (i) a visited load not provably `NoAlias` with the candidate, whose
value is not known independently of memory, aborts the whole search
(DSE.cpp:180-195 returning `WIRStopWholeWalk`), so any path through it
aborts; (ii) an opaque call that may reference the written object — no
read-file entry to interpret, `callUsesPtr` positive — aborts the path's
search; (iii) `tryKillWriterTo` sets the unused-writer status exactly when
it returns true; and (iv) when the written pointer's base resolves, it
returns true iff no forward path aborts. -/
theorem C8_abort_and_kill_iff (q : DSEQuery) :
    (∀ (aliasR : SVAAResult) (ctx : Option (List Bool)) (rest : List DSEInstr),
      aliasR ≠ SVAAResult.SVNoAlias →
        pathAborts q (DSEInstr.loadInstr aliasR false :: rest) ctx = true) ∧
    (∀ (ctx : Option (List Bool)) (rest : List DSEInstr),
      pathAborts q (DSEInstr.callInst false none true :: rest) ctx = true) ∧
    (∀ (paths : List (List DSEInstr)),
      (tryKillWriterTo q paths).2 = (tryKillWriterTo q paths).1) ∧
    (∀ (paths : List (List DSEInstr)), q.baseOK = true →
      ((tryKillWriterTo q paths).1 = true ↔
        ∀ p ∈ paths,
          pathAborts q p (q.size.map (fun s => List.replicate s false)) = false)) := by
  refine ⟨?_, ?_, ?_, ?_⟩
  · intro aliasR ctx rest h
    have h1 : (noteBytesWrittenBy q (DSEInstr.loadInstr aliasR false) ctx).1 =
        WalkInstructionResult.WIRStopWholeWalk := by
      unfold noteBytesWrittenBy
      rw [if_neg (by
        rw [show isLifetimeEnd q.allocKind (DSEInstr.loadInstr aliasR false) = false
          from rfl]
        exact Bool.false_ne_true)]
      dsimp only
      rw [if_neg (by exact Bool.false_ne_true), if_pos (by simpa using h)]
    simp only [pathAborts]
    rw [h1]
  · intro ctx rest
    have h1 : noteBytesWrittenBy q (DSEInstr.callInst false none true) ctx =
        (WalkInstructionResult.WIRContinue, ctx) := by
      unfold noteBytesWrittenBy
      rw [if_neg (by
        rw [isLifetimeEnd_callInst_false]
        exact Bool.false_ne_true)]
    simp [pathAborts, h1]
  · intro paths
    obtain ⟨sz, bOK, ak⟩ := q
    cases bOK with
    | false => rfl
    | true => rfl
  · intro paths hbase
    obtain ⟨sz, bOK, ak⟩ := q
    cases hbase
    have hteq : (tryKillWriterTo ⟨sz, true, ak⟩ paths).1 =
        !(paths.any fun p =>
            pathAborts ⟨sz, true, ak⟩ p (sz.map fun s => List.replicate s false)) := rfl
    rw [hteq, Bool.not_eq_true', List.any_eq_false]
    constructor
    · intro hh p hp
      cases hb : pathAborts ⟨sz, true, ak⟩ p (sz.map fun s => List.replicate s false) with
      | false => rfl
      | true => exact absurd hb (hh p hp)
    · intro hh p hp hb
      rw [hh p hp] at hb
      exact Bool.false_ne_true hb

theorem C8_abort_and_kill_iff_witness :
    pathAborts ⟨some 2, true, AllocKind.otherAlloc⟩
        [DSEInstr.loadInstr SVAAResult.SVMustAlias false] none = true ∧
    ((tryKillWriterTo ⟨some 2, true, AllocKind.otherAlloc⟩ []).1 = true ↔
      ∀ p ∈ ([] : List (List DSEInstr)),
        pathAborts ⟨some 2, true, AllocKind.otherAlloc⟩ p
          ((some 2).map (fun s => List.replicate s false)) = false) :=
  ⟨(C8_abort_and_kill_iff ⟨some 2, true, AllocKind.otherAlloc⟩).1
      SVAAResult.SVMustAlias none [] (by decide),
   (C8_abort_and_kill_iff ⟨some 2, true, AllocKind.otherAlloc⟩).2.2.2 [] rfl⟩

/-- C5: a yield-style call with a declared, bounded lock domain
(TentativeLoads.cpp:424-437) clobbers only the listed objects: for any
object X outside the domain, its recorded map entry and the snapshot's
`allOthersClobbered` flag are unchanged, hence any read of X — and the full
classification of any plain load naming only X — is unaffected by the
call. -/
theorem C5_lock_domain_frame (g : Globals) (S : TLStore) (dom : List MemObj)
    (X : MemObj) (tls : ThreadLocalState) (ce pess : Bool) (hX : X ∉ dom) :
    findMap X (updateTLStore (SInstr.yieldCall pess (some dom)) tls ce S).objs =
      findMap X S.objs ∧
    (updateTLStore (SInstr.yieldCall pess (some dom)) tls ce S).allOthersClobbered =
      S.allOthersClobbered ∧
    (∀ (off size : ℕ),
      shouldCheckRead ⟨X, off⟩ size
          (updateTLStore (SInstr.yieldCall pess (some dom)) tls ce S) =
        shouldCheckRead ⟨X, off⟩ size S) ∧
    (∀ (off size : ℕ) (vol ordered simple : Bool) (res : Option ResultPB),
      shouldCheckLoad g (updateTLStore (SInstr.yieldCall pess (some dom)) tls ce S)
          (SInstr.load (PtrOperand.single ValSetType.PB ⟨X, off⟩) size vol ordered
            simple res) =
        shouldCheckLoad g S
          (SInstr.load (PtrOperand.single ValSetType.PB ⟨X, off⟩) size vol ordered
            simple res)) := by
  have hpres : findMap X (updateTLStore (SInstr.yieldCall pess (some dom)) tls ce S).objs =
        findMap X S.objs ∧
      (updateTLStore (SInstr.yieldCall pess (some dom)) tls ce S).allOthersClobbered =
        S.allOthersClobbered := by
    cases pess with
    | true => exact ⟨rfl, rfl⟩
    | false => exact clearDomain_foldl_preserves hX
  obtain ⟨h1, h2⟩ := hpres
  refine ⟨h1, h2, ?_, ?_⟩
  · intro off size
    exact shouldCheckRead_congr ⟨X, off⟩ size h1 h2
  · intro off size vol ordered simple res
    refine shouldCheckLoad_load_congr g _ size vol ordered simple res ?_ h2
    intro o ho
    have hoX : o = X := by simpa [ptrObjs] using ho
    subst hoX
    exact h1

theorem C5_lock_domain_frame_witness :
    findMap (MemObj.gv 0 false)
        (updateTLStore (SInstr.yieldCall false (some [MemObj.gv 1 false])) TLS_NOCHECK
          true sampleStoreA).objs =
      findMap (MemObj.gv 0 false) sampleStoreA.objs :=
  (C5_lock_domain_frame ⟨false⟩ sampleStoreA [MemObj.gv 1 false] (MemObj.gv 0 false)
    TLS_NOCHECK true false (by decide)).1

/-- The preheader snapshot of the C6 instances: nothing recorded, everything
clobbered. -/
def c6Pre : TLStore := { objs := [], allOthersClobbered := true }

/-- Loop body for the C6 counterexample: a single 8-byte store to global 0,
carried as `TLS_MUSTCHECK` so the update path runs. -/
def c6Body : List (SInstr × ThreadLocalState) :=
  [(SInstr.store (PtrOperand.single ValSetType.PB ⟨MemObj.gv 0 false, 0⟩) 8,
    TLS_MUSTCHECK)]

/-- C6 counterexample: byte 3 of global 0 is tentative (untrusted) at the
loop header after phase 1 — the header holds the preheader's fully
clobbered snapshot — but trusted at the header after phase 2, which
receives the latch snapshot where the body's store marked bytes [0,8)
good.  The phase-2 tentative set at the header is therefore NOT a superset
of the phase-1 one. -/
theorem C6_counterexample :
    trusted (findTentativeLoadsTwoPhase ⟨false⟩ false c6Body c6Pre).phase1Header
        (MemObj.gv 0 false) 3 = false ∧
    trusted (findTentativeLoadsTwoPhase ⟨false⟩ false c6Body c6Pre).phase2Header
        (MemObj.gv 0 false) 3 = true := by
  decide

/-- C6 (amended): per-instruction monotonicity of the two-phase walk of an
unbounded loop — an instruction classified `TLS_MUSTCHECK` by phase 1 is
still `TLS_MUSTCHECK` after phase 2, thanks to the second-pass early return
of `TLAnalyseInstruction` (TentativeLoads.cpp:982-983).  (The header
byte-set superset direction of the original claim is refuted by
`C6_counterexample`: the phase-2 header snapshot can trust strictly more
bytes.) -/
theorem C6_mustcheck_sticky (g : Globals) (cd : Bool)
    (body : List (SInstr × ThreadLocalState)) (pre : TLStore) (i : ℕ)
    (h : (((findTentativeLoadsTwoPhase g cd body pre).phase1Body).getD i
        defaultInstrState).2 = TLS_MUSTCHECK) :
    (((findTentativeLoadsTwoPhase g cd body pre).phase2Body).getD i
        defaultInstrState).2 = TLS_MUSTCHECK :=
  walkBlock_sticky g cd _ _ i h

/-- Loop body for the C6 witness: a plain load of 4 bytes of global 0 whose
speculated result is a useful single value; under the clobbered preheader
snapshot phase 1 classifies it `TLS_MUSTCHECK`. -/
def c6LoadBody : List (SInstr × ThreadLocalState) :=
  [(SInstr.load (PtrOperand.single ValSetType.PB ⟨MemObj.gv 0 false, 0⟩) 4 false false
      false (some (ResultPB.single false)),
    TLS_NOCHECK)]

theorem C6_mustcheck_sticky_witness :
    (((findTentativeLoadsTwoPhase ⟨false⟩ false c6LoadBody c6Pre).phase2Body).getD 0
        defaultInstrState).2 = TLS_MUSTCHECK :=
  C6_mustcheck_sticky ⟨false⟩ false c6LoadBody c6Pre 0 (by decide)

/-- A snapshot where global 0 has an (empty) recorded interval map and
`allOthersClobbered` is clear. -/
def cexStore : TLStore :=
  { objs := [(MemObj.gv 0 false, [])], allOthersClobbered := false }

/-- A plain, unordered, non-volatile 4-byte load of global 0 with a useful
speculated result. -/
def cexLoad : SInstr :=
  SInstr.load (PtrOperand.single ValSetType.PB ⟨MemObj.gv 0 false, 0⟩) 4 false false
    false (some (ResultPB.single false))

/-- C4 counterexample: with `allOthersClobbered` clear and global 0 holding
an empty interval map, the load is classified `TLS_MUSTCHECK`, but
`markGoodBytes` returns without marking anything
(`if(!Store->allOthersClobbered) return;`, TentativeLoads.cpp:137-140), so
an immediately subsequent identical load is still `TLS_MUSTCHECK`, not
`TLS_NOCHECK`. -/
theorem C4_counterexample :
    shouldCheckLoad ⟨false⟩ cexStore cexLoad = TLS_MUSTCHECK ∧
    shouldCheckLoad ⟨false⟩ (updateTLStore cexLoad TLS_MUSTCHECK true cexStore)
        cexLoad = TLS_MUSTCHECK ∧
    TLS_MUSTCHECK ≠ TLS_NOCHECK := by
  decide

/-- C4 (amended): under full clobber (`allOthersClobbered` set) the claimed
side effect does hold, in a check-emitting context.  (i) A plain unordered
load with a unique pointer-typed target classified `TLS_MUSTCHECK` marks its
bytes trusted, so an immediately subsequent load of the same bytes of the
same object — with a usable (not wholly-unknown, not multi) result — is
classified `TLS_NOCHECK`.  (ii) A memory copy classified `TLS_MUSTCHECK`
whose recorded copied-value ranges lie within the copied length marks both
ends, so re-examining it yields `TLS_NOCHECK`.  Without full clobber the
marking is skipped, as `C4_counterexample` shows. -/
theorem C4_mustcheck_marks_trusted (g : Globals) (S : TLStore) (hinv : StoreInv S)
    (hflag : S.allOthersClobbered = true) :
    (∀ (ptr : PtrOperand) (v : ImpVal) (size : ℕ) (simple vol2 simple2 : Bool)
        (res res2 : Option ResultPB) (tls : ThreadLocalState),
      uniqueIV ptr = some (ValSetType.PB, v) →
      0 < size →
      isWhollyUnknownSingle res2 = false →
      (∀ rs, res2 ≠ some (ResultPB.multi rs)) →
      shouldCheckLoad g S (SInstr.load ptr size false false simple res) =
        TLS_MUSTCHECK →
      shouldCheckLoad g
          (updateTLStore (SInstr.load ptr size false false simple res) tls true S)
          (SInstr.load (PtrOperand.single ValSetType.PB v) size vol2 false simple2
            res2) =
        TLS_NOCHECK) ∧
    (∀ (dst src : PtrOperand) (len : ℕ) (vals : List ((ℕ × ℕ) × Bool))
        (tls : ThreadLocalState),
      (∀ r ∈ vals, r.2 = false → r.1.1 < r.1.2 ∧ r.1.2 ≤ len) →
      shouldCheckLoad g S (SInstr.memTransfer dst src (some len) (some vals)) =
        TLS_MUSTCHECK →
      shouldCheckLoad g
          (updateTLStore (SInstr.memTransfer dst src (some len) (some vals)) tls
            true S)
          (SInstr.memTransfer dst src (some len) (some vals)) =
        TLS_NOCHECK) := by
  constructor
  · intro ptr v size simple vol2 simple2 res res2 tls hu hsz hwu2 hm2 hfirst
    obtain ⟨hst, hMUST⟩ := shouldCheckLoad_load_mustcheck hu hfirst
    have hnc := shouldCheckLoadFrom_mustcheck_not_const hMUST
    obtain ⟨hnull, hcg⟩ := isNullOrConst_false_elim hnc
    rw [updateTLStore_load_plain]
    obtain ⟨hinv2, hflag2, hmono⟩ := markGoodBytes_out hinv hsz ptr true 0
    obtain ⟨M2, hM2, hcov⟩ := markGoodBytes_covers hinv hflag hu hcg hsz 0
    have hMinv2 : TLMapInv M2 := hinv2 ⟨v.V, M2⟩ (findMap_mem hM2)
    have hrd : shouldCheckRead v size (markGoodBytes ptr size true S) = false := by
      exact shouldCheckRead_false_of_covered hM2 hMinv2 hsz
        (fun y h1 h2 => hcov y (by omega) (by omega))
    rw [shouldCheckLoad_load_unfold, hst]
    rw [if_neg (by decide)]
    rw [if_neg (by rw [hwu2]; exact Bool.false_ne_true)]
    rw [if_neg (by decide)]
    dsimp only
    rw [if_neg (fun hh => hh rfl)]
    unfold shouldCheckLoadFrom
    rw [hnc]
    rw [if_neg (by decide)]
    rcases res2 with _ | r2
    · dsimp only
      rw [hrd]
      rw [if_neg (by decide)]
    · rcases r2 with wu | rs
      · dsimp only
        rw [hrd]
        rw [if_neg (by decide)]
      · exact absurd rfl (hm2 rs)
  · intro dst src len vals tls hb hfirst
    rw [shouldCheckLoad_memTransfer_unfold] at hfirst
    rcases hst : g.programSingleThreaded with _ | _
    swap
    · exfalso
      rw [hst, if_pos rfl] at hfirst
      exact absurd hfirst (by decide)
    rw [hst, if_neg (by decide)] at hfirst
    obtain ⟨v, hu, hlen, hnull, hcg, hvals⟩ := shouldCheckCopy_mustcheck hfirst
    rw [updateTLStore_memTransfer]
    rw [show walkCopyInst dst src (some len) true S =
        markGoodBytes dst len true (markGoodBytes src len true S) from rfl]
    obtain ⟨hinv1, hflag1, _⟩ := markGoodBytes_out hinv hlen src true 0
    obtain ⟨M1, hM1, hcov1⟩ := markGoodBytes_covers hinv hflag hu hcg hlen 0
    obtain ⟨hinv2, hflag2, hmono2⟩ := markGoodBytes_out hinv1 hlen dst true 0
    obtain ⟨M2, hM2, hmon⟩ := hmono2 v.V M1 hM1
    have hrd : ∀ r ∈ vals, r.2 = false →
        shouldCheckRead ⟨v.V, v.offset + r.1.1⟩ (r.1.2 - r.1.1)
          (markGoodBytes dst len true (markGoodBytes src len true S)) = false := by
      intro r hr h2
      obtain ⟨hlt, hle⟩ := hb r hr h2
      exact shouldCheckRead_false_of_covered hM2
        (hinv2 ⟨v.V, M2⟩ (findMap_mem hM2)) (by omega)
        (fun y h1 h2 => hmon y (hcov1 y (by omega) (by omega)))
    rw [shouldCheckLoad_memTransfer_unfold, hst, if_neg (by decide)]
    exact shouldCheckCopy_nocheck hu (Nat.pos_iff_ne_zero.mp hlen) hvals hrd

theorem C4_mustcheck_marks_trusted_witness :
    shouldCheckLoad ⟨false⟩ (updateTLStore cexLoad TLS_MUSTCHECK true c6Pre)
        cexLoad = TLS_NOCHECK :=
  (C4_mustcheck_marks_trusted ⟨false⟩ c6Pre (by intro p hp; cases hp) rfl).1
    (PtrOperand.single ValSetType.PB ⟨MemObj.gv 0 false, 0⟩) ⟨MemObj.gv 0 false, 0⟩
    4 false false false (some (ResultPB.single false)) (some (ResultPB.single false))
    TLS_MUSTCHECK rfl (by decide) rfl (by intro rs h; simp at h) (by decide)

end LLPE
